import Mathlib

/-!
Verification of the settings/actions subsystem of the "Export Layers" GIMP plug-in.

The development shallowly embeds the modules `export_layers/actions.py` and
`export_layers/pygimplib/setting/persistor.py`.  Pure Python functions become Lean
functions; the mutable actions group becomes an explicit state record threaded through
the operations; raised Python exceptions become an `Option PyErr` component of each
operation's result; `invoke_event` is modelled by an explicit event log together with
the one event handler that `actions.create` connects (`'after-clear-actions'`).

Two small pieces of behaviour live in pygimplib modules that are not part of the
source tree (`pygimplib.path` and `pygimplib.setting.group`); the definitions for
those two pieces are modelled from the specification text and are marked with a
`Modelled from the spec:` doc comment.
-/

namespace ExportLayers

/-- Python exceptions that the embedded code can raise. -/
inductive PyErr where
  | valueError (msg : String)
  | keyError (key : String)
  | typeError (msg : String)
deriving DecidableEq

/-! ### Decimal rendering of naturals

Python renders the uniquifier counters with `'_{}'.format(i)` / `' ({})'.format(i)`,
i.e. in decimal.  We embed decimal rendering with a structurally recursive (hence
kernel-evaluable) function and prove it injective, which is what the uniquification
arguments need. -/

/-- Little-endian decimal digits; the first argument is fuel (`n` itself suffices). -/
def natDigitsAux : Nat → Nat → List Nat
  | 0, _ => []
  | _ + 1, 0 => []
  | fuel + 1, n + 1 => (n + 1) % 10 :: natDigitsAux fuel ((n + 1) / 10)

/-- Little-endian decimal digits of `n` (empty for `0`). -/
def natDigits (n : Nat) : List Nat :=
  natDigitsAux n n

theorem natDigitsAux_zero (f : Nat) : natDigitsAux f 0 = [] := by
  cases f <;> rfl

theorem natDigitsAux_congr :
    ∀ f₁ f₂ n, n ≤ f₁ → n ≤ f₂ → natDigitsAux f₁ n = natDigitsAux f₂ n := by
  intro f₁
  induction f₁ using Nat.strong_induction_on with
  | _ f₁ ih =>
    intro f₂ n h₁ h₂
    cases n with
    | zero => rw [natDigitsAux_zero, natDigitsAux_zero]
    | succ n =>
      cases f₁ with
      | zero => omega
      | succ f₁ =>
        cases f₂ with
        | zero => omega
        | succ f₂ =>
          simp only [natDigitsAux]
          have hdiv : (n + 1) / 10 ≤ f₁ := by
            have := Nat.div_le_self (n + 1) 10
            omega
          have hdiv₂ : (n + 1) / 10 ≤ f₂ := by
            have := Nat.div_le_self (n + 1) 10
            omega
          rw [ih f₁ (by omega) f₂ ((n + 1) / 10) hdiv hdiv₂]

theorem natDigits_succ (n : Nat) :
    natDigits (n + 1) = (n + 1) % 10 :: natDigits ((n + 1) / 10) := by
  show natDigitsAux (n + 1) (n + 1) = (n + 1) % 10 :: natDigitsAux ((n + 1) / 10) ((n + 1) / 10)
  simp only [natDigitsAux]
  have h : (n + 1) / 10 ≤ n := by
    have h10 := Nat.div_le_self (n + 1) 10
    have : (n + 1) / 10 < n + 1 := Nat.div_lt_self (Nat.succ_pos n) (by decide)
    omega
  rw [natDigitsAux_congr n ((n + 1) / 10) ((n + 1) / 10) h (Nat.le_refl _)]

/-- Value of a little-endian digit list. -/
def ofDigits : List Nat → Nat
  | [] => 0
  | d :: ds => d + 10 * ofDigits ds

theorem ofDigits_natDigits : ∀ n, ofDigits (natDigits n) = n := by
  intro n
  induction n using Nat.strong_induction_on with
  | _ n ih =>
    match n with
    | 0 => rfl
    | n + 1 =>
      rw [natDigits_succ]
      simp only [ofDigits]
      rw [ih ((n + 1) / 10) (Nat.div_lt_self (Nat.succ_pos n) (by decide))]
      exact Nat.mod_add_div (n + 1) 10

theorem natDigits_injective : Function.Injective natDigits := by
  intro a b h
  have : ofDigits (natDigits a) = ofDigits (natDigits b) := by rw [h]
  rwa [ofDigits_natDigits, ofDigits_natDigits] at this

theorem natDigits_lt_ten : ∀ n, ∀ d ∈ natDigits n, d < 10 := by
  intro n
  induction n using Nat.strong_induction_on with
  | _ n ih =>
    match n with
    | 0 => intro d hd; simp [natDigits, natDigitsAux] at hd
    | n + 1 =>
      rw [natDigits_succ]
      intro d hd
      rcases List.mem_cons.mp hd with h | h
      · subst h; exact Nat.mod_lt _ (by decide)
      · exact ih ((n + 1) / 10) (Nat.div_lt_self (Nat.succ_pos n) (by decide)) d h

/-- The character for a single decimal digit. -/
def digitChar (d : Nat) : Char :=
  if d = 0 then '0' else if d = 1 then '1' else if d = 2 then '2' else if d = 3 then '3'
  else if d = 4 then '4' else if d = 5 then '5' else if d = 6 then '6' else if d = 7 then '7'
  else if d = 8 then '8' else '9'

def charToDigit (c : Char) : Nat :=
  c.toNat - 48

theorem charToDigit_digitChar {d : Nat} (h : d < 10) : charToDigit (digitChar d) = d := by
  interval_cases d <;> decide

theorem map_digitChar_recover :
    ∀ ds : List Nat, (∀ d ∈ ds, d < 10) → (ds.map digitChar).map charToDigit = ds := by
  intro ds
  induction ds with
  | nil => intro _; rfl
  | cons d ds ih =>
    intro h
    have hd := charToDigit_digitChar (h d (List.mem_cons_self d ds))
    have ht := ih (fun x hx => h x (List.mem_cons_of_mem d hx))
    simp only [List.map_cons]
    rw [hd, ht]

/-- Decimal string for a natural number, as Python's `'{}'.format(i)` renders it. -/
def natRepr (n : Nat) : String :=
  if n = 0 then "0" else ⟨(natDigits n).reverse.map digitChar⟩

theorem natRepr_injective : Function.Injective natRepr := by
  intro a b h
  by_cases ha : a = 0 <;> by_cases hb : b = 0
  · omega
  · exfalso
    rw [natRepr, natRepr, if_pos ha, if_neg hb] at h
    have hdata : ("0" : String).data = ((natDigits b).reverse.map digitChar) :=
      congrArg String.data h
    have hrec := map_digitChar_recover (natDigits b).reverse
      (fun d hd => natDigits_lt_ten b d (List.mem_reverse.mp hd))
    rw [← hdata] at hrec
    have : (natDigits b).reverse = [0] := by
      rw [← hrec]; rfl
    have hb' : natDigits b = [0] := by
      have := congrArg List.reverse this
      simpa using this
    have := ofDigits_natDigits b
    rw [hb'] at this
    simp [ofDigits] at this
    omega
  · exfalso
    rw [natRepr, natRepr, if_neg ha, if_pos hb] at h
    have hdata : ((natDigits a).reverse.map digitChar) = ("0" : String).data :=
      congrArg String.data h
    have hrec := map_digitChar_recover (natDigits a).reverse
      (fun d hd => natDigits_lt_ten a d (List.mem_reverse.mp hd))
    rw [hdata] at hrec
    have : (natDigits a).reverse = [0] := by
      rw [← hrec]; rfl
    have ha' : natDigits a = [0] := by
      have := congrArg List.reverse this
      simpa using this
    have := ofDigits_natDigits a
    rw [ha'] at this
    simp [ofDigits] at this
    omega
  · rw [natRepr, natRepr, if_neg ha, if_neg hb] at h
    have hdata : ((natDigits a).reverse.map digitChar) = ((natDigits b).reverse.map digitChar) :=
      congrArg String.data h
    have hrec₁ := map_digitChar_recover (natDigits a).reverse
      (fun d hd => natDigits_lt_ten a d (List.mem_reverse.mp hd))
    have hrec₂ := map_digitChar_recover (natDigits b).reverse
      (fun d hd => natDigits_lt_ten b d (List.mem_reverse.mp hd))
    rw [hdata] at hrec₁
    have hrev : (natDigits a).reverse = (natDigits b).reverse := hrec₁.symm.trans hrec₂
    exact natDigits_injective (List.reverse_injective hrev)

/-! ### Uniquification

`pygimplib.path.uniquify_string` is not part of the source tree; its behaviour is
modelled from the specification and from the docstrings in `actions.py` that describe
it ("Return `name` modified to not match the name of any existing action", "each
subsequent identical name is made unique", "e.g. `'autocrop'` ... for the first action,
`'autocrop_2'` ... for the second action, and so on"). -/

/-- Search for the first index `i` (starting at the given start index) whose candidate
does not occur in `existing`; gives up after `fuel` collisions. -/
def firstFreshIdx {α : Type} [DecidableEq α] (cand : Nat → α) (existing : List α) :
    Nat → Nat → Nat
  | 0, i => i
  | fuel + 1, i => if cand i ∈ existing then firstFreshIdx cand existing fuel (i + 1) else i

theorem firstFreshIdx_ge {α : Type} [DecidableEq α] (cand : Nat → α) (existing : List α) :
    ∀ fuel i, i ≤ firstFreshIdx cand existing fuel i := by
  intro fuel
  induction fuel with
  | zero => intro i; exact Nat.le_refl i
  | succ fuel ih =>
    intro i
    simp only [firstFreshIdx]
    by_cases h : cand i ∈ existing
    · rw [if_pos h]
      exact Nat.le_trans (Nat.le_succ i) (ih (i + 1))
    · rw [if_neg h]

theorem firstFreshIdx_not_mem_of_exists {α : Type} [DecidableEq α]
    (cand : Nat → α) (existing : List α) :
    ∀ fuel i, (∃ j ≤ fuel, cand (i + j) ∉ existing) →
      cand (firstFreshIdx cand existing fuel i) ∉ existing := by
  intro fuel
  induction fuel with
  | zero =>
    intro i ⟨j, hj, hn⟩
    have : j = 0 := Nat.le_zero.mp hj
    subst this
    simpa [firstFreshIdx] using hn
  | succ fuel ih =>
    intro i ⟨j, hj, hn⟩
    simp only [firstFreshIdx]
    by_cases hc : cand i ∈ existing
    · rw [if_pos hc]
      apply ih
      have hj0 : j ≠ 0 := by
        intro h; subst h; simp at hn; exact hn hc
      refine ⟨j - 1, by omega, ?_⟩
      have : i + 1 + (j - 1) = i + j := by omega
      rwa [this]
    · rwa [if_neg hc]

/-- Pigeonhole: an injective candidate family cannot collide with every element of a
finite list for `existing.length + 1` consecutive indices. -/
theorem exists_fresh_candidate {α : Type} [DecidableEq α]
    (cand : Nat → α) (existing : List α) (hinj : Function.Injective cand) (i : Nat) :
    ∃ j ≤ existing.length, cand (i + j) ∉ existing := by
  by_contra hcon
  push_neg at hcon
  have hsub : ((List.range (existing.length + 1)).map fun j => cand (i + j)) ⊆ existing := by
    intro x hx
    rcases List.mem_map.mp hx with ⟨j, hj, rfl⟩
    have hj' : j ≤ existing.length := by
      have := List.mem_range.mp hj
      omega
    exact hcon j hj'
  have hnd : ((List.range (existing.length + 1)).map fun j => cand (i + j)).Nodup := by
    refine List.Nodup.map ?_ (List.nodup_range _)
    intro a b hab
    have := hinj hab
    omega
  have hlen := (hnd.subperm hsub).length_le
  simp at hlen

/-- Modelled from the spec: `pygimplib.path.uniquify_string` (module `pygimplib.path`
is not under `src/`).  Returns the input value unchanged if it does not occur in
`existing`; otherwise appends successive uniquifier suffixes (produced by the
generator starting at `2`: `'_2'`, `'_3'`, ... resp. `' (2)'`, `' (3)'`, ...) until
the result no longer occurs in `existing`. -/
def uniquifyValue {α : Type} [DecidableEq α] (v : α) (existing : List α)
    (cand : Nat → α) : α :=
  if v ∈ existing then
    cand (firstFreshIdx cand existing (existing.length + 1) 2)
  else v

theorem uniquifyValue_not_mem {α : Type} [DecidableEq α] (v : α) (existing : List α)
    (cand : Nat → α) (hinj : Function.Injective cand) :
    uniquifyValue v existing cand ∉ existing := by
  unfold uniquifyValue
  by_cases h : v ∈ existing
  · rw [if_pos h]
    apply firstFreshIdx_not_mem_of_exists
    rcases exists_fresh_candidate cand existing hinj 2 with ⟨j, hj, hn⟩
    exact ⟨j, Nat.le_trans hj (Nat.le_succ _), hn⟩
  · rwa [if_neg h]

theorem uniquifyValue_eq_of_not_mem {α : Type} [DecidableEq α] (v : α) (existing : List α)
    (cand : Nat → α) (h : v ∉ existing) : uniquifyValue v existing cand = v := by
  simp [uniquifyValue, h]

theorem uniquifyValue_eq_cand_of_mem {α : Type} [DecidableEq α] (v : α) (existing : List α)
    (cand : Nat → α) (h : v ∈ existing) :
    ∃ k, 2 ≤ k ∧ uniquifyValue v existing cand = cand k := by
  refine ⟨firstFreshIdx cand existing (existing.length + 1) 2,
    firstFreshIdx_ge cand existing _ 2, ?_⟩
  simp [uniquifyValue, h]

/-- The action-name uniquifier family `name ++ '_2'`, `name ++ '_3'`, ... is injective. -/
theorem nameCand_injective (name : String) :
    Function.Injective (fun i => name ++ "_" ++ natRepr i) := by
  intro a b h
  apply natRepr_injective
  apply String.ext
  have hdata := congrArg String.data h
  simp only [String.data_append, List.append_assoc] at hdata
  exact List.append_cancel_left (List.append_cancel_left hdata)

/-- The display-name uniquifier family `dn ++ ' (2)'`, `dn ++ ' (3)'`, ... is injective
(as `Option String` values, matching the values stored in `display_name` settings). -/
theorem displayCand_injective (dn : String) :
    Function.Injective (fun i => (some (dn ++ " (" ++ natRepr i ++ ")") : Option String)) := by
  intro a b h
  apply natRepr_injective
  apply String.ext
  have hsome : dn ++ " (" ++ natRepr a ++ ")" = dn ++ " (" ++ natRepr b ++ ")" :=
    Option.some_injective _ h
  have hdata := congrArg String.data hsome
  simp only [String.data_append, List.append_assoc] at hdata
  have h₁ := List.append_cancel_left (List.append_cancel_left hdata)
  exact List.append_cancel_right h₁

/-! ### The action data model (`export_layers/actions.py`)

An argument setting inside an action's `'arguments'` group is either an ordinary
(scalar) setting or a `pygimplib.setting.ArraySetting`; only those two shapes matter
for the embedded behaviour (array/array-length syncing). -/

inductive Arg where
  | scalar (name : String) (value : Int)
  | array (name : String) (elements : List Int)
deriving DecidableEq

def Arg.name : Arg → String
  | .scalar n _ => n
  | .array n _ => n

/-- Values of the settings stored inside an action group. -/
inductive SettingVal where
  | fn (f : Option String)
  | boolean (b : Bool)
  | str (s : Option String)
  | strList (l : Option (List String))
  | args (l : List Arg)
deriving DecidableEq

structure ASetting where
  name : String
  val : SettingVal
deriving DecidableEq

/-- An action: the nested `setting.Group` built by `_create_action`, with its `name`,
its `tags` and its child settings in creation order. -/
structure Action where
  name : String
  tags : List String
  settings : List ASetting
deriving DecidableEq

def Action.lookup (a : Action) (n : String) : Option SettingVal :=
  (a.settings.find? (fun s => s.name = n)).map ASetting.val

def Action.displayName (a : Action) : Option String :=
  match a.lookup "display_name" with
  | some (SettingVal.str s) => s
  | _ => none

def Action.origName (a : Action) : Option String :=
  match a.lookup "orig_name" with
  | some (SettingVal.str s) => s
  | _ => none

def Action.args (a : Action) : List Arg :=
  match a.lookup "arguments" with
  | some (SettingVal.args l) => l
  | _ => []

/-- `action.get_value(name, default)` for boolean settings. -/
def Action.getBool (a : Action) (n : String) (dflt : Bool) : Bool :=
  match a.lookup n with
  | some (SettingVal.boolean b) => b
  | _ => dflt

/-- A dictionary describing an action, as passed to `create` (via `initial_actions`)
or `add`.  `none` in an `Option`-typed field models an absent key.  `function` is
doubly optional: the key may be absent, or present with value `None` or a procedure
name.  Present `display_name` values are modelled as strings. -/
structure ActionDict where
  name : Option String := none
  type : Option String := none
  function : Option (Option String) := none
  arguments : Option (List Arg) := none
  enabled : Option Bool := none
  displayName : Option String := none
  origName : Option String := none
  isPdbProcedure : Option Bool := none
  subfilter : Option String := none
deriving DecidableEq, Inhabited

def DEFAULT_PROCEDURES_GROUP : String := "default_procedures"

def DEFAULT_CONSTRAINTS_GROUP : String := "default_constraints"

/-- The dictionary fields that are not consumed as named parameters of
`_create_action` / `_create_procedure` become generic settings (`custom_fields`).
In this dictionary model that is `is_pdb_procedure` (and, for procedures,
`subfilter`). `orig_name` is popped separately by `_create_action`. -/
def customFieldsBase (d : ActionDict) : List ASetting :=
  match d.isPdbProcedure with
  | some b => [⟨"is_pdb_procedure", SettingVal.boolean b⟩]
  | none => []

def procedureCustomFields (d : ActionDict) : List ASetting :=
  customFieldsBase d ++
    (match d.subfilter with
     | some s => [⟨"subfilter", SettingVal.str (some s)⟩]
     | none => [])

/-- `_create_action`: builds the action group with its settings in creation order.
`description`, `more_options_expanded` and `enabled_for_previews` keep their default
values (the dictionary model does not carry those fields). -/
def createActionCore (name : String) (function : Option String) (arguments : List Arg)
    (enabled : Bool) (displayName : Option String) (tags : List String)
    (actionGroups : Option (List String)) (origNameValue : String)
    (customFields : List ASetting) : Action :=
  { name := name
    tags := tags
    settings :=
      [⟨"function", SettingVal.fn function⟩,
       ⟨"arguments", SettingVal.args arguments⟩,
       ⟨"enabled", SettingVal.boolean enabled⟩,
       ⟨"display_name", SettingVal.str displayName⟩,
       ⟨"description", SettingVal.str none⟩,
       ⟨"action_groups", SettingVal.strList actionGroups⟩,
       ⟨"more_options_expanded", SettingVal.boolean false⟩,
       ⟨"enabled_for_previews", SettingVal.boolean true⟩,
       ⟨"orig_name", SettingVal.str (some origNameValue)⟩]
      ++ customFields }

/-- `_create_procedure`: `function` is a required positional parameter, so a
dictionary without a `'function'` key makes the call itself fail with `TypeError`. -/
def createProcedure (d : ActionDict) (name : String) : Except PyErr Action :=
  match d.function with
  | none => Except.error (PyErr.typeError "_create_procedure() missing argument: function")
  | some f =>
    Except.ok (createActionCore name f (d.arguments.getD []) (d.enabled.getD true)
      d.displayName ["action", "procedure"] (some [DEFAULT_PROCEDURES_GROUP])
      (d.origName.getD name) (procedureCustomFields d))

/-- `_create_constraint`: like `_create_procedure` but with the `'constraint'` tag,
the constraints action group, and an extra `'subfilter'` setting appended after the
common settings (default value `None`). -/
def createConstraint (d : ActionDict) (name : String) : Except PyErr Action :=
  match d.function with
  | none => Except.error (PyErr.typeError "_create_constraint() missing argument: function")
  | some f =>
    let a := createActionCore name f (d.arguments.getD []) (d.enabled.getD true)
      d.displayName ["action", "constraint"] (some [DEFAULT_CONSTRAINTS_GROUP])
      (d.origName.getD name) (customFieldsBase d)
    Except.ok { a with settings := a.settings ++ [⟨"subfilter", SettingVal.str d.subfilter⟩] }

/-- `_create_action_by_type`: pops `'type'` (default `'procedure'`), validates it,
then checks the required fields (`_REQUIRED_ACTION_FIELDS = ['name']`), then
dispatches to the creator for the type. -/
def createActionByType (d : ActionDict) : Except PyErr Action :=
  let type_ := d.type.getD "procedure"
  if type_ = "procedure" ∨ type_ = "constraint" then
    match d.name with
    | none => Except.error (PyErr.valueError "missing required field: \x22name\x22")
    | some nm =>
      if type_ = "procedure" then createProcedure d nm else createConstraint d nm
  else
    Except.error (PyErr.valueError ("invalid type \x22" ++ type_ ++ "\x22"))

/-! ### The actions group and its operations -/

/-- Events invoked on the actions group (the module docstring of `actions.py` lists
them together with their arguments). -/
inductive Event where
  | beforeAddAction (d : ActionDict)
  | afterAddAction (a : Action) (d : ActionDict)
  | beforeReorderAction (a : Action) (position : Nat)
  | afterReorderAction (a : Action) (position : Nat) (newPosition : Nat)
  | beforeRemoveAction (a : Action)
  | afterRemoveAction (name : String)
  | beforeClearActions
  | afterClearActions
deriving DecidableEq

/-- State of a `setting.Group` returned by `actions.create`:
the `'added'` subgroup, the `'_added_data'` setting's value and default value, the
`'_added_data_values'` setting's value, and a log of the invoked events. -/
structure ActionsGroup where
  name : String
  added : List Action
  addedData : List ActionDict
  addedDataDefault : List ActionDict
  addedDataValues : List (String × SettingVal)
  log : List Event
deriving DecidableEq

/-- Modelled from the spec: `setting.Group.add` (module `pygimplib.setting.group` is
not under `src/`) rejects a setting whose name matches an existing child, since
setting names "must be unique within a setting group"
(docstring of `get_action_dict_for_pdb_procedure`). -/
def groupAddAction (l : List Action) (a : Action) : Except PyErr (List Action) :=
  if l.any (fun b => b.name = a.name) then
    Except.error (PyErr.valueError ("setting \x22" ++ a.name ++ "\x22 already exists"))
  else
    Except.ok (l ++ [a])

/-- The loop body of `_create_actions_from_added_data`: for each stored dictionary,
invoke `'before-add-action'`, create the action, add it to `'added'`, and invoke
`'after-add-action'`.  (In a group as returned by `create`, no handler is connected
to the two add events, so invoking them only records them.)  A raised exception
propagates, leaving the mutations made so far in place. -/
def createActionsFromData (g : ActionsGroup) : List ActionDict → ActionsGroup × Option PyErr
  | [] => (g, none)
  | d :: ds =>
    let g₁ := { g with log := g.log ++ [Event.beforeAddAction d] }
    match createActionByType d with
    | Except.error e => (g₁, some e)
    | Except.ok a =>
      match groupAddAction g₁.added a with
      | Except.error e => (g₁, some e)
      | Except.ok added' =>
        let g₂ := { g₁ with added := added',
                            log := g₁.log ++ [Event.afterAddAction a d] }
        createActionsFromData g₂ ds

/-- `_create_actions_from_added_data`: iterates over `actions['_added_data'].value`. -/
def createActionsFromAddedData (g : ActionsGroup) : ActionsGroup × Option PyErr :=
  createActionsFromData g g.addedData

/-- `invoke_event`: records the event; `create` connects
`_create_actions_from_added_data` to `'after-clear-actions'`, so invoking that event
also re-creates the actions from the stored data. -/
def invokeEvent (g : ActionsGroup) (e : Event) : ActionsGroup × Option PyErr :=
  let g₁ := { g with log := g.log ++ [e] }
  match e with
  | Event.afterClearActions => createActionsFromAddedData g₁
  | _ => (g₁, none)

/-- `_get_initial_added_data`: `[]` when no initial actions are given, otherwise a
copy of each dictionary. -/
def getInitialAddedData (initialActions : Option (List ActionDict)) : List ActionDict :=
  match initialActions with
  | none => []
  | some l => l

/-- `create(name, initial_actions)`: builds the group with the `'added'` subgroup and
the `'_added_data'` / `'_added_data_values'` settings, then creates the actions from
the initial data.  A `ValueError`/`TypeError` raised while creating an initial action
propagates out of `create`. -/
def create (name : String) (initialActions : Option (List ActionDict)) :
    Except PyErr ActionsGroup :=
  let initData := getInitialAddedData initialActions
  let g : ActionsGroup :=
    { name := name, added := [], addedData := initData, addedDataDefault := initData,
      addedDataValues := [], log := [] }
  match createActionsFromAddedData g with
  | (g', none) => Except.ok g'
  | (_, some e) => Except.error e

def actionTypeMatches (a : Action) : Bool :=
  a.tags.contains "procedure" || a.tags.contains "constraint"

/-- The `listed_actions` dictionary built inside `walk`: settings of `'added'` whose
tags match, keyed by name; a Python dict comprehension keeps the last entry for a
duplicated key, hence the lookup searches the reversed list. -/
def listedLookup (g : ActionsGroup) (n : String) : Option Action :=
  ((g.added.filter actionTypeMatches).reverse).find? (fun a => a.name = n)

/-- `walk(actions)` with default arguments: iterate over the stored dictionaries in
pipeline order and yield the matching action of `'added'` for each.  (Dictionaries in
`_added_data` always carry a `'name'` key in groups built by `create`/`add`.) -/
def walk (g : ActionsGroup) : List Action :=
  g.addedData.filterMap (fun d => d.name.bind (listedLookup g))

/-- `_uniquify_action_name`: make `name` distinct from the names of all existing
actions, appending `'_2'`, `'_3'`, ... . -/
def uniquifyActionName (g : ActionsGroup) (name : String) : String :=
  uniquifyValue name ((walk g).map Action.name) (fun i => name ++ "_" ++ natRepr i)

/-- `_uniquify_action_display_name`: make the display name distinct from the display
names of all existing actions, appending `' (2)'`, `' (3)'`, ... . -/
def uniquifyActionDisplayName (g : ActionsGroup) (dn : String) : Option String :=
  uniquifyValue (some dn) ((walk g).map Action.displayName)
    (fun i => some (dn ++ " (" ++ natRepr i ++ ")"))

/-- The effect of `_uniquify_name_and_display_name` on the dictionary: store the
original name in `'orig_name'` and uniquify `'name'` and `'display_name'`. -/
def uniquifiedDict (g : ActionsGroup) (d : ActionDict) (nm dn : String) : ActionDict :=
  { d with origName := some nm, name := some (uniquifyActionName g nm),
           displayName := uniquifyActionDisplayName g dn }

/-- `add(actions, action_dict)` for a dictionary argument: copy the dictionary,
invoke `'before-add-action'`, uniquify the name and display name (direct key accesses
`action_dict['name']` / `action_dict['display_name']` raise `KeyError` for a missing
key), create the action, add it to `'added'`, append the mutated dictionary to
`'_added_data'`, and invoke `'after-add-action'` with the created action and the
original dictionary. -/
def add (g : ActionsGroup) (d : ActionDict) : ActionsGroup × Option PyErr :=
  -- `invoke_event('before-add-action')`: no handler is connected to this event in a
  -- group returned by `create`, so invoking it only records it (same as
  -- `invokeEvent g (Event.beforeAddAction d)`, written out so that the group the
  -- subsequent steps see is explicit)
  let g₁ : ActionsGroup := { g with log := g.log ++ [Event.beforeAddAction d] }
  match d.name with
  | none => (g₁, some (PyErr.keyError "name"))
  | some nm =>
    match d.displayName with
    | none => (g₁, some (PyErr.keyError "display_name"))
    | some dn =>
      -- uniquification reads `'added'` and `'_added_data'`, which `g₁` shares with `g`
      let d' := uniquifiedDict g d nm dn
      match createActionByType d' with
      | Except.error e => (g₁, some e)
      | Except.ok a =>
        match groupAddAction g.added a with
        | Except.error e => (g₁, some e)
        | Except.ok added' =>
          let g₂ := { g₁ with added := added', addedData := g₁.addedData ++ [d'] }
          ((invokeEvent g₂ (Event.afterAddAction a d)).1, none)

/-- `_find_index_in_added_data`: index of the first stored dictionary whose
`'name'` equals `action_name`. -/
def findIndexInAddedData (g : ActionsGroup) (actionName : String) : Option Nat :=
  g.addedData.findIdx? (fun d => d.name = some actionName)

/-- Python `list.insert`: positions past the end append (positions are already
non-negative where this is used). -/
def pyInsert {α : Type} (l : List α) (n : Nat) (x : α) : List α :=
  l.take n ++ x :: l.drop n

/-- `reorder(actions, action_name, new_position)`: find the current position (a
missing name raises `ValueError`), look the action up in `'added'`, invoke
`'before-reorder-action'`, pop the stored dictionary, translate a negative position
(clamping at 0), insert the dictionary at the new position, and invoke
`'after-reorder-action'`. -/
def reorder (g : ActionsGroup) (actionName : String) (newPosition : Int) :
    ActionsGroup × Option PyErr :=
  match findIndexInAddedData g actionName with
  | none =>
    (g, some (PyErr.valueError
      ("action \x22" ++ actionName ++ "\x22 not found in actions named \x22" ++ g.name ++ "\x22")))
  | some currentPosition =>
    match g.added.find? (fun a => a.name = actionName) with
    | none => (g, some (PyErr.keyError actionName))
    | some action =>
      -- `'before-reorder-action'` has no connected handler: only the log changes
      let g₁ : ActionsGroup :=
        { g with log := g.log ++ [Event.beforeReorderAction action currentPosition] }
      let actionDict := g.addedData.getD currentPosition default
      let data := g.addedData.eraseIdx currentPosition
      let np : Nat :=
        if newPosition < 0 then (max ((data.length : Int) + newPosition + 1) 0).toNat
        else newPosition.toNat
      let g₂ := { g₁ with addedData := pyInsert data np actionDict }
      ((invokeEvent g₂ (Event.afterReorderAction action currentPosition np)).1, none)

/-- `remove(actions, action_name)`: find the index (a missing name raises
`ValueError`), look the action up in `'added'`, invoke `'before-remove-action'`,
remove the action from `'added'` and its dictionary from `'_added_data'`, and invoke
`'after-remove-action'`. -/
def remove (g : ActionsGroup) (actionName : String) : ActionsGroup × Option PyErr :=
  match findIndexInAddedData g actionName with
  | none =>
    (g, some (PyErr.valueError
      ("action \x22" ++ actionName ++ "\x22 not found in actions named \x22" ++ g.name ++ "\x22")))
  | some actionIndex =>
    match g.added.find? (fun a => a.name = actionName) with
    | none => (g, some (PyErr.keyError actionName))
    | some action =>
      -- `'before-remove-action'` has no connected handler: only the log changes
      let g₁ : ActionsGroup := { g with log := g.log ++ [Event.beforeRemoveAction action] }
      let g₂ := { g₁ with
        added := g.added.filter (fun a => !(a.name == actionName)),
        addedData := g.addedData.eraseIdx actionIndex }
      ((invokeEvent g₂ (Event.afterRemoveAction actionName)).1, none)

/-- `_clear`: remove the walked actions from `'added'`, reset `'_added_data'` to its
default value (the initial data) and reset `'_added_data_values'`. -/
def clearCore (g : ActionsGroup) : ActionsGroup :=
  let names := (walk g).map Action.name
  { g with added := g.added.filter (fun a => !(names.contains a.name)),
           addedData := g.addedDataDefault,
           addedDataValues := [] }

/-- `clear(actions)`: invoke `'before-clear-actions'`, run `_clear`, and invoke
`'after-clear-actions'` (whose connected handler re-creates the initial actions). -/
def clear (g : ActionsGroup) : ActionsGroup × Option PyErr :=
  -- `'before-clear-actions'` has no connected handler: only the log changes
  let g₁ : ActionsGroup := { g with log := g.log ++ [Event.beforeClearActions] }
  let g₂ := clearCore g₁
  invokeEvent g₂ Event.afterClearActions

/-- A sequence of `add` calls (a call that raises leaves the group's actions
unchanged, and the caller may continue with further calls). -/
def addSeq (g : ActionsGroup) : List ActionDict → ActionsGroup
  | [] => g
  | d :: ds => addSeq (add g d).1 ds

/-- Well-formedness invariant of an actions group: stored dictionaries and added
actions are aligned by name, the added actions carry a matching type tag, and their
names are pairwise distinct. -/
structure WFBase (g : ActionsGroup) : Prop where
  namesEq : g.addedData.map ActionDict.name = g.added.map (fun a => some a.name)
  tagsOk : ∀ a ∈ g.added, actionTypeMatches a = true
  nodupNames : (g.added.map Action.name).Nodup

/-! ### Helper lemmas about action creation -/

theorem createActionByType_ok_fields (d : ActionDict) (a : Action)
    (h : createActionByType d = Except.ok a) :
    d.name = some a.name ∧
    (∃ f, d.function = some f ∧ a.lookup "function" = some (SettingVal.fn f)) ∧
    a.lookup "arguments" = some (SettingVal.args (d.arguments.getD [])) ∧
    a.lookup "enabled" = some (SettingVal.boolean (d.enabled.getD true)) ∧
    a.lookup "display_name" = some (SettingVal.str d.displayName) ∧
    a.lookup "orig_name" = some (SettingVal.str (some (d.origName.getD a.name))) ∧
    actionTypeMatches a = true ∧
    (a.tags = ["action", "procedure"] ∨ a.tags = ["action", "constraint"]) ∧
    (d.type.getD "procedure" = "constraint" →
      a.lookup "subfilter" = some (SettingVal.str d.subfilter)) := by
  unfold createActionByType at h
  by_cases htype : d.type.getD "procedure" = "procedure" ∨ d.type.getD "procedure" = "constraint"
  · rw [if_pos htype] at h
    cases hname : d.name with
    | none => rw [hname] at h; exact absurd h (by simp)
    | some nm =>
      rw [hname] at h
      replace h : (if d.type.getD "procedure" = "procedure" then createProcedure d nm
          else createConstraint d nm) = Except.ok a := h
      by_cases hp : d.type.getD "procedure" = "procedure"
      · rw [if_pos hp] at h
        unfold createProcedure at h
        cases hfn : d.function with
        | none => rw [hfn] at h; exact absurd h (by simp)
        | some f =>
          rw [hfn] at h
          simp only [Except.ok.injEq] at h
          subst h
          refine ⟨rfl, ⟨f, rfl, rfl⟩, rfl, rfl, rfl, rfl, rfl, Or.inl rfl, ?_⟩
          intro hc
          rw [hp] at hc
          exact absurd hc (by decide)
      · have hc : d.type.getD "procedure" = "constraint" := htype.resolve_left hp
        rw [if_neg hp] at h
        unfold createConstraint at h
        cases hfn : d.function with
        | none => rw [hfn] at h; exact absurd h (by simp)
        | some f =>
          rw [hfn] at h
          simp only [Except.ok.injEq] at h
          subst h
          refine ⟨rfl, ⟨f, rfl, rfl⟩, rfl, rfl, rfl, rfl, rfl, Or.inr rfl, fun _ => ?_⟩
          cases hpdb : d.isPdbProcedure with
          | none => simp only [Action.lookup, createActionCore, customFieldsBase, hpdb]; rfl
          | some b => simp only [Action.lookup, createActionCore, customFieldsBase, hpdb]; rfl
  · rw [if_neg htype] at h
    exact absurd h (by simp)

theorem find?_name_eq_some (l : List Action) (hnd : (l.map Action.name).Nodup)
    (a : Action) (ha : a ∈ l) : l.find? (fun x => x.name = a.name) = some a := by
  induction l with
  | nil => cases ha
  | cons b t ih =>
    simp only [List.map_cons, List.nodup_cons] at hnd
    by_cases hb : b.name = a.name
    · have hab : a = b := by
        rcases List.mem_cons.mp ha with h | h
        · exact h
        · exfalso
          exact hnd.1 (hb ▸ List.mem_map_of_mem Action.name h)
      subst hab
      simp [List.find?]
    · have ha' : a ∈ t := by
        rcases List.mem_cons.mp ha with h | h
        · exact absurd (congrArg Action.name h.symm) hb
        · exact h
      have := ih hnd.2 ha'
      simp only [List.find?]
      rw [decide_eq_false hb]
      exact this

theorem listedLookup_eq (g : ActionsGroup) (h : WFBase g) (a : Action)
    (ha : a ∈ g.added) : listedLookup g a.name = some a := by
  unfold listedLookup
  have hfilter : g.added.filter actionTypeMatches = g.added :=
    List.filter_eq_self.mpr (fun b hb => h.tagsOk b hb)
  rw [hfilter]
  have hnd : (g.added.reverse.map Action.name).Nodup := by
    rw [List.map_reverse]
    exact List.nodup_reverse.mpr h.nodupNames
  exact find?_name_eq_some g.added.reverse hnd a (List.mem_reverse.mpr ha)

theorem filterMap_lookup_aligned (g : ActionsGroup)
    (hlook : ∀ a ∈ g.added, listedLookup g a.name = some a) :
    ∀ (data : List ActionDict) (acts : List Action),
      data.map ActionDict.name = acts.map (fun a => some a.name) →
      (∀ a ∈ acts, a ∈ g.added) →
      data.filterMap (fun d => d.name.bind (listedLookup g)) = acts := by
  intro data
  induction data with
  | nil =>
    intro acts h _
    cases acts with
    | nil => rfl
    | cons a as => simp at h
  | cons d ds ih =>
    intro acts h hmem
    cases acts with
    | nil => simp at h
    | cons a as =>
      simp only [List.map_cons, List.cons.injEq] at h
      have hstep : d.name.bind (listedLookup g) = some a := by
        rw [h.1, Option.some_bind]
        exact hlook a (hmem a (List.mem_cons_self a as))
      have hcons : List.filterMap (fun d : ActionDict => d.name.bind (listedLookup g)) (d :: ds)
          = a :: List.filterMap (fun d : ActionDict => d.name.bind (listedLookup g)) ds := by
        rw [List.filterMap_cons, hstep]
      rw [hcons, ih as h.2 (fun x hx => hmem x (List.mem_cons_of_mem a hx))]

theorem walk_eq_added (g : ActionsGroup) (h : WFBase g) : walk g = g.added := by
  unfold walk
  exact filterMap_lookup_aligned g (listedLookup_eq g h) g.addedData g.added
    h.namesEq (fun _ hx => hx)

theorem displayName_of_lookup (a : Action) (s : Option String)
    (h : a.lookup "display_name" = some (SettingVal.str s)) : a.displayName = s := by
  unfold Action.displayName
  rw [h]

theorem origName_of_lookup (a : Action) (s : Option String)
    (h : a.lookup "orig_name" = some (SettingVal.str s)) : a.origName = s := by
  unfold Action.origName
  rw [h]

theorem groupAddAction_ok (l : List Action) (a : Action) (added' : List Action)
    (h : groupAddAction l a = Except.ok added') :
    added' = l ++ [a] ∧ ∀ b ∈ l, b.name ≠ a.name := by
  unfold groupAddAction at h
  by_cases hc : l.any (fun b => b.name = a.name)
  · rw [if_pos hc] at h
    exact absurd h (by simp)
  · rw [if_neg hc] at h
    simp only [Except.ok.injEq] at h
    refine ⟨h.symm, ?_⟩
    intro b hb heq
    exact hc (List.any_eq_true.mpr ⟨b, hb, by simp [heq]⟩)

theorem createActionsFromData_fields :
    ∀ (ds : List ActionDict) (g : ActionsGroup),
      (createActionsFromData g ds).1.name = g.name ∧
      (createActionsFromData g ds).1.addedData = g.addedData ∧
      (createActionsFromData g ds).1.addedDataDefault = g.addedDataDefault ∧
      (createActionsFromData g ds).1.addedDataValues = g.addedDataValues := by
  intro ds
  induction ds with
  | nil => intro g; exact ⟨rfl, rfl, rfl, rfl⟩
  | cons d ds ih =>
    intro g
    cases hc : createActionByType d with
    | error e => simp [createActionsFromData, hc]
    | ok a =>
      cases hg : groupAddAction g.added a with
      | error e => simp [createActionsFromData, hc, hg]
      | ok added' =>
        simp only [createActionsFromData, hc, hg]
        exact ih _

/-- The actions group state produced by re-creating actions from stored dictionaries
depends only on the `'added'` list and the dictionaries; this lets `clear` be related
back to `create`. -/
theorem createActionsFromData_congr :
    ∀ (ds : List ActionDict) (g h : ActionsGroup), g.added = h.added →
      (createActionsFromData g ds).1.added = (createActionsFromData h ds).1.added ∧
      (createActionsFromData g ds).2 = (createActionsFromData h ds).2 := by
  intro ds
  induction ds with
  | nil => intro g h hgh; exact ⟨hgh, rfl⟩
  | cons d ds ih =>
    intro g h hgh
    cases hc : createActionByType d with
    | error e => simp [createActionsFromData, hc, hgh]
    | ok a =>
      cases hg : groupAddAction g.added a with
      | error e =>
        have hg2 : groupAddAction h.added a = Except.error e := hgh ▸ hg
        simp only [createActionsFromData, hc, hg, hg2]
        exact ⟨hgh, trivial⟩
      | ok added' =>
        have hg2 : groupAddAction h.added a = Except.ok added' := hgh ▸ hg
        simp only [createActionsFromData, hc, hg, hg2]
        exact ih _ _ rfl

theorem createActionsFromData_ok :
    ∀ (ds : List ActionDict) (g g' : ActionsGroup),
      createActionsFromData g ds = (g', none) →
      ∃ acts, g'.added = g.added ++ acts ∧
        ds.map ActionDict.name = acts.map (fun a => some a.name) ∧
        (∀ a ∈ acts, actionTypeMatches a = true) ∧
        acts.map Action.displayName = ds.map ActionDict.displayName ∧
        ((g.added.map Action.name).Nodup → (g'.added.map Action.name).Nodup) := by
  intro ds
  induction ds with
  | nil =>
    intro g g' h
    have hg : g' = g := by
      have := congrArg Prod.fst h
      exact this.symm
    subst hg
    exact ⟨[], by simp, rfl, by simp, rfl, fun hn => hn⟩
  | cons d ds ih =>
    intro g g' h
    cases hc : createActionByType d with
    | error e =>
      exfalso
      simp only [createActionsFromData, hc] at h
      exact Option.noConfusion (congrArg Prod.snd h)
    | ok a =>
      cases hg : groupAddAction g.added a with
      | error e =>
        exfalso
        simp only [createActionsFromData, hc, hg] at h
        exact Option.noConfusion (congrArg Prod.snd h)
      | ok added' =>
        obtain ⟨hadded', hfresh⟩ := groupAddAction_ok g.added a added' hg
        simp only [createActionsFromData, hc, hg] at h
        obtain ⟨hda, hf, harg, hen, hdisp, horig, htm, htags, hsub⟩ :=
          createActionByType_ok_fields d a hc
        obtain ⟨acts, hacts, hnames, htags', hdisps, hnd⟩ := ih _ _ h
        subst hadded'
        refine ⟨a :: acts, ?_, ?_, ?_, ?_, ?_⟩
        · rw [hacts]; simp
        · simp only [List.map_cons, hda, hnames]
        · intro b hb
          rcases List.mem_cons.mp hb with hb | hb
          · subst hb; exact htm
          · exact htags' b hb
        · simp only [List.map_cons, hdisps, displayName_of_lookup a _ hdisp]
        · intro hbase
          apply hnd
          simp only [List.map_append, List.map_cons, List.map_nil]
          rw [List.nodup_append]
          refine ⟨hbase, List.nodup_singleton _, ?_⟩
          intro x hx hx2
          rcases List.mem_singleton.mp hx2 with rfl
          rcases List.mem_map.mp hx with ⟨b, hb, hbn⟩
          exact hfresh b hb hbn

theorem create_ok_spec (name : String) (initialActions : Option (List ActionDict))
    (g₀ : ActionsGroup) (h : create name initialActions = Except.ok g₀) :
    WFBase g₀ ∧ g₀.addedData = getInitialAddedData initialActions ∧
    g₀.addedDataDefault = getInitialAddedData initialActions ∧
    g₀.added.map Action.displayName = (getInitialAddedData initialActions).map
      ActionDict.displayName := by
  unfold create at h
  replace h : (match createActionsFromAddedData
      { name := name, added := [], addedData := getInitialAddedData initialActions,
        addedDataDefault := getInitialAddedData initialActions,
        addedDataValues := [], log := [] } with
    | (g', none) => Except.ok g'
    | (_, some e) => Except.error e) = Except.ok g₀ := h
  rcases hres : createActionsFromAddedData
      { name := name, added := [], addedData := getInitialAddedData initialActions,
        addedDataDefault := getInitialAddedData initialActions,
        addedDataValues := [], log := [] } with ⟨g', err⟩
  rw [hres] at h
  cases err with
  | some e => exact absurd h (by simp)
  | none =>
    replace h : Except.ok g' = Except.ok g₀ := h
    simp only [Except.ok.injEq] at h
    subst h
    unfold createActionsFromAddedData at hres
    have hfields := createActionsFromData_fields
      (getInitialAddedData initialActions)
      { name := name, added := [], addedData := getInitialAddedData initialActions,
        addedDataDefault := getInitialAddedData initialActions,
        addedDataValues := [], log := [] }
    rw [hres] at hfields
    obtain ⟨acts, hacts, hnames, htags, hdisps, hnd⟩ :=
      createActionsFromData_ok _ _ _ hres
    simp only [List.nil_append] at hacts
    refine ⟨⟨?_, ?_, ?_⟩, hfields.2.1, hfields.2.2.1, ?_⟩
    · rw [hfields.2.1, hacts]; exact hnames
    · intro a ha; rw [hacts] at ha; exact htags a ha
    · exact hnd (by simp)
    · rw [hacts, hdisps]

/-- A call to `add` that raises (`KeyError`, `ValueError` or `TypeError`) leaves the
group unchanged except for the already-recorded `'before-add-action'` event. -/
theorem add_error_state (g : ActionsGroup) (d : ActionDict) (e : PyErr)
    (h : (add g d).2 = some e) :
    (add g d).1 = { g with log := g.log ++ [Event.beforeAddAction d] } := by
  unfold add at h ⊢
  cases hn : d.name with
  | none => simp only [hn]
  | some nm =>
    simp only [hn] at h ⊢
    cases hdn : d.displayName with
    | none => simp only [hdn]
    | some dn =>
      simp only [hdn] at h ⊢
      cases hc : createActionByType (uniquifiedDict g d nm dn) with
      | error e' => simp only [hc]
      | ok a =>
        simp only [hc] at h ⊢
        cases hga : groupAddAction g.added a with
        | error e' => simp only [hga]
        | ok added' =>
          simp only [hga, invokeEvent] at h
          exact absurd h (by simp)

/-- A successful call to `add` appends the created action to `'added'` and the
uniquified dictionary to `'_added_data'`, and brackets the mutation between the
`'before-add-action'` and `'after-add-action'` events. -/
theorem add_ok_state (g : ActionsGroup) (d : ActionDict)
    (h : (add g d).2 = none) :
    ∃ nm dn a, d.name = some nm ∧ d.displayName = some dn ∧
      createActionByType (uniquifiedDict g d nm dn) = Except.ok a ∧
      groupAddAction g.added a = Except.ok (g.added ++ [a]) ∧
      (add g d).1 = { g with added := g.added ++ [a],
                             addedData := g.addedData ++ [uniquifiedDict g d nm dn],
                             log := g.log ++ [Event.beforeAddAction d,
                               Event.afterAddAction a d] } := by
  unfold add at h ⊢
  cases hn : d.name with
  | none => simp only [hn] at h; exact absurd h (by simp)
  | some nm =>
    simp only [hn] at h ⊢
    cases hdn : d.displayName with
    | none => simp only [hdn] at h; exact absurd h (by simp)
    | some dn =>
      simp only [hdn] at h ⊢
      cases hc : createActionByType (uniquifiedDict g d nm dn) with
      | error e' => simp only [hc] at h; exact absurd h (by simp)
      | ok a =>
        simp only [hc] at h ⊢
        cases hga : groupAddAction g.added a with
        | error e' => simp only [hga] at h; exact absurd h (by simp)
        | ok added' =>
          obtain ⟨ha', _⟩ := groupAddAction_ok g.added a added' hga
          subst ha'
          refine ⟨nm, dn, a, rfl, rfl, hc, hga, ?_⟩
          simp [hga, invokeEvent, List.append_assoc]

theorem add_preserves_invariant (g : ActionsGroup) (d : ActionDict) (hWF : WFBase g)
    (hdisp : (g.added.map Action.displayName).Nodup) :
    WFBase (add g d).1 ∧ ((add g d).1.added.map Action.displayName).Nodup := by
  cases herr : (add g d).2 with
  | some e =>
    rw [add_error_state g d e herr]
    exact ⟨⟨hWF.namesEq, hWF.tagsOk, hWF.nodupNames⟩, hdisp⟩
  | none =>
    obtain ⟨nm, dn, a, hn, hdn, hca, _, hstate⟩ := add_ok_state g d herr
    obtain ⟨hda, _, _, _, hdisplook, _, htm, _, _⟩ :=
      createActionByType_ok_fields (uniquifiedDict g d nm dn) a hca
    have hwalk : walk g = g.added := walk_eq_added g hWF
    have haname : a.name = uniquifyActionName g nm := by
      have : some (uniquifyActionName g nm) = some a.name := hda
      exact (Option.some.injEq _ _ ▸ this).symm
    have hadisp : a.displayName = uniquifyActionDisplayName g dn :=
      displayName_of_lookup a _ hdisplook
    have hfreshName : a.name ∉ g.added.map Action.name := by
      rw [haname]
      unfold uniquifyActionName
      rw [hwalk]
      exact uniquifyValue_not_mem nm _ _ (nameCand_injective nm)
    have hfreshDisp : a.displayName ∉ g.added.map Action.displayName := by
      rw [hadisp]
      unfold uniquifyActionDisplayName
      rw [hwalk]
      exact uniquifyValue_not_mem (some dn) _ _ (displayCand_injective dn)
    rw [hstate]
    refine ⟨⟨?_, ?_, ?_⟩, ?_⟩
    · show (g.addedData ++ [uniquifiedDict g d nm dn]).map ActionDict.name
        = (g.added ++ [a]).map (fun a => some a.name)
      simp only [List.map_append, List.map_cons, List.map_nil]
      rw [hWF.namesEq]
      have : (uniquifiedDict g d nm dn).name = some a.name := hda
      rw [this]
    · intro b hb
      rcases List.mem_append.mp hb with hb | hb
      · exact hWF.tagsOk b hb
      · rcases List.mem_singleton.mp hb with rfl
        exact htm
    · show ((g.added ++ [a]).map Action.name).Nodup
      simp only [List.map_append, List.map_cons, List.map_nil]
      rw [List.nodup_append]
      refine ⟨hWF.nodupNames, List.nodup_singleton _, ?_⟩
      intro x hx hx2
      rcases List.mem_singleton.mp hx2 with rfl
      exact hfreshName hx
    · show ((g.added ++ [a]).map Action.displayName).Nodup
      simp only [List.map_append, List.map_cons, List.map_nil]
      rw [List.nodup_append]
      refine ⟨hdisp, List.nodup_singleton _, ?_⟩
      intro x hx hx2
      rcases List.mem_singleton.mp hx2 with rfl
      exact hfreshDisp hx

theorem addSeq_preserves_invariant :
    ∀ (ds : List ActionDict) (g : ActionsGroup), WFBase g →
      (g.added.map Action.displayName).Nodup →
      WFBase (addSeq g ds) ∧ ((addSeq g ds).added.map Action.displayName).Nodup := by
  intro ds
  induction ds with
  | nil => intro g hWF hdisp; exact ⟨hWF, hdisp⟩
  | cons d ds ih =>
    intro g hWF hdisp
    obtain ⟨hWF', hdisp'⟩ := add_preserves_invariant g d hWF hdisp
    exact ih (add g d).1 hWF' hdisp'

/-- C1 (amended).  Names: starting from any group built by `create`, after any
sequence of `add` calls the added actions have pairwise-distinct names, and a
successful `add` names the new action `name` itself when free and
`name ++ '_k'` (`k ≥ 2`) on a collision, keeps `orig_name` equal to the supplied
name, and uniquifies the display name with `' (k)'` suffixes likewise.  Display
names are pairwise distinct provided the display names carried by the initial
actions are pairwise distinct (`create` copies initial dictionaries without
uniquification, so duplicated initial display names survive — see the
counterexample). -/
theorem c1_add_uniquifies_names_and_display_names :
    (∀ (name : String) (initialActions : Option (List ActionDict)) (g₀ : ActionsGroup)
        (ds : List ActionDict),
      create name initialActions = Except.ok g₀ →
      ((getInitialAddedData initialActions).map ActionDict.displayName).Nodup →
      ((addSeq g₀ ds).added.map Action.name).Nodup ∧
        ((addSeq g₀ ds).added.map Action.displayName).Nodup) ∧
    (∀ (g : ActionsGroup) (d : ActionDict), WFBase g → (add g d).2 = none →
      ∃ nm dn a, d.name = some nm ∧ d.displayName = some dn ∧
        (add g d).1.added = g.added ++ [a] ∧
        a.origName = some nm ∧
        a.name ∉ g.added.map Action.name ∧
        (nm ∉ g.added.map Action.name → a.name = nm) ∧
        (nm ∈ g.added.map Action.name → ∃ k, 2 ≤ k ∧ a.name = nm ++ "_" ++ natRepr k) ∧
        (some dn ∉ g.added.map Action.displayName → a.displayName = some dn) ∧
        (some dn ∈ g.added.map Action.displayName →
          ∃ k, 2 ≤ k ∧ a.displayName = some (dn ++ " (" ++ natRepr k ++ ")"))) := by
  constructor
  · intro name initialActions g₀ ds hcreate hdisp0
    obtain ⟨hWF, _, _, hdisps⟩ := create_ok_spec name initialActions g₀ hcreate
    have hdisp : (g₀.added.map Action.displayName).Nodup := by rw [hdisps]; exact hdisp0
    obtain ⟨hWF', hdisp'⟩ := addSeq_preserves_invariant ds g₀ hWF hdisp
    exact ⟨hWF'.nodupNames, hdisp'⟩
  · intro g d hWF hok
    obtain ⟨nm, dn, a, hn, hdn, hca, _, hstate⟩ := add_ok_state g d hok
    obtain ⟨hda, _, _, _, hdisplook, horiglook, _, _, _⟩ :=
      createActionByType_ok_fields (uniquifiedDict g d nm dn) a hca
    have hwalk : walk g = g.added := walk_eq_added g hWF
    have haname : a.name = uniquifyActionName g nm := by
      have : some (uniquifyActionName g nm) = some a.name := hda
      exact (Option.some.injEq _ _ ▸ this).symm
    have hadisp : a.displayName = uniquifyActionDisplayName g dn :=
      displayName_of_lookup a _ hdisplook
    have horig : a.origName = some nm := by
      have := origName_of_lookup a _ horiglook
      simpa [uniquifiedDict] using this
    refine ⟨nm, dn, a, hn, hdn, by rw [hstate], horig, ?_, ?_, ?_, ?_, ?_⟩
    · rw [haname]
      unfold uniquifyActionName
      rw [hwalk]
      exact uniquifyValue_not_mem nm _ _ (nameCand_injective nm)
    · intro hnot
      rw [haname]
      unfold uniquifyActionName
      rw [hwalk]
      exact uniquifyValue_eq_of_not_mem nm _ _ hnot
    · intro hmem
      rw [haname]
      unfold uniquifyActionName
      rw [hwalk]
      exact uniquifyValue_eq_cand_of_mem nm _ _ hmem
    · intro hnot
      rw [hadisp]
      unfold uniquifyActionDisplayName
      rw [hwalk]
      exact uniquifyValue_eq_of_not_mem (some dn) _ _ hnot
    · intro hmem
      rw [hadisp]
      unfold uniquifyActionDisplayName
      rw [hwalk]
      exact uniquifyValue_eq_cand_of_mem (some dn) _ _ hmem

/-- C1, counterexample to the claim as stated: `create` adds initial actions without
uniquification, so a group created with two initial actions that carry the same
display name (`'X'`) has two added actions with equal display names — the display
names are not pairwise distinct even before any `add` call. -/
theorem c1_counterexample :
    (create "procs" (some
        [⟨some "a", none, some (some "f"), none, none, some "X", none, none, none⟩,
         ⟨some "b", none, some (some "f"), none, none, some "X", none, none, none⟩])).map
      (fun g => decide ((g.added.map Action.displayName).Nodup)) = Except.ok false := by
  rfl

/-- Witness for C1: concrete instantiation of both parts of the amended theorem (two
`add` calls with the same dictionary on a freshly created empty group, and a single
`add` on an empty group). -/
theorem c1_witness :
    (((addSeq ⟨"procs", [], [], [], [], []⟩
        [⟨some "autocrop", none, some (some "f"), none, none, some "Autocrop", none, none, none⟩,
         ⟨some "autocrop", none, some (some "f"), none, none, some "Autocrop", none, none, none⟩]).added.map
        Action.name).Nodup ∧
      ((addSeq ⟨"procs", [], [], [], [], []⟩
        [⟨some "autocrop", none, some (some "f"), none, none, some "Autocrop", none, none, none⟩,
         ⟨some "autocrop", none, some (some "f"), none, none, some "Autocrop", none, none, none⟩]).added.map
        Action.displayName).Nodup) ∧
    (∃ nm dn a,
      (⟨some "autocrop", none, some (some "f"), none, none, some "Autocrop", none, none,
        none⟩ : ActionDict).name = some nm ∧
      (⟨some "autocrop", none, some (some "f"), none, none, some "Autocrop", none, none,
        none⟩ : ActionDict).displayName = some dn ∧
      (add ⟨"procs", [], [], [], [], []⟩
        ⟨some "autocrop", none, some (some "f"), none, none, some "Autocrop", none, none,
          none⟩).1.added = (⟨"procs", [], [], [], [], []⟩ : ActionsGroup).added ++ [a] ∧
      a.origName = some nm ∧
      a.name ∉ (⟨"procs", [], [], [], [], []⟩ : ActionsGroup).added.map Action.name ∧
      (nm ∉ (⟨"procs", [], [], [], [], []⟩ : ActionsGroup).added.map Action.name → a.name = nm) ∧
      (nm ∈ (⟨"procs", [], [], [], [], []⟩ : ActionsGroup).added.map Action.name →
        ∃ k, 2 ≤ k ∧ a.name = nm ++ "_" ++ natRepr k) ∧
      (some dn ∉ (⟨"procs", [], [], [], [], []⟩ : ActionsGroup).added.map Action.displayName →
        a.displayName = some dn) ∧
      (some dn ∈ (⟨"procs", [], [], [], [], []⟩ : ActionsGroup).added.map Action.displayName →
        ∃ k, 2 ≤ k ∧ a.displayName = some (dn ++ " (" ++ natRepr k ++ ")"))) := by
  constructor
  · exact c1_add_uniquifies_names_and_display_names.1 "procs" none
      ⟨"procs", [], [], [], [], []⟩
      [⟨some "autocrop", none, some (some "f"), none, none, some "Autocrop", none, none, none⟩,
       ⟨some "autocrop", none, some (some "f"), none, none, some "Autocrop", none, none, none⟩]
      rfl (by decide)
  · exact c1_add_uniquifies_names_and_display_names.2 ⟨"procs", [], [], [], [], []⟩
      ⟨some "autocrop", none, some (some "f"), none, none, some "Autocrop", none, none, none⟩
      ⟨rfl, by (intro a ha; cases ha), by decide⟩ rfl

/-- C6 (amended).  Every created action is a `'procedure'` or a `'constraint'`; when
creating an action from a dictionary (the `create`/`_create_actions_from_added_data`
path), a `'type'` that is neither `'procedure'` nor `'constraint'` raises
`ValueError`, a missing `'name'` raises `ValueError`, and an absent `'type'` defaults
to `'procedure'`.  On the `add` path, however, `_uniquify_name_and_display_name`
accesses `action_dict['name']` and `action_dict['display_name']` before the type and
required-field validation runs, so `add` raises `KeyError` for a dictionary missing
`'name'` (or `'display_name'`); with both keys present an invalid `'type'` raises
`ValueError` from `add` as well. -/
theorem c6_action_type_validation :
    (∀ (d : ActionDict) (t : String), d.type = some t → t ≠ "procedure" → t ≠ "constraint" →
      createActionByType d = Except.error
        (PyErr.valueError ("invalid type \x22" ++ t ++ "\x22"))) ∧
    (∀ d : ActionDict,
      (d.type.getD "procedure" = "procedure" ∨ d.type.getD "procedure" = "constraint") →
      d.name = none →
      createActionByType d = Except.error
        (PyErr.valueError "missing required field: \x22name\x22")) ∧
    (∀ d : ActionDict, d.type = none →
      createActionByType d = createActionByType { d with type := some "procedure" }) ∧
    (∀ (d : ActionDict) (a : Action), createActionByType d = Except.ok a →
      "procedure" ∈ a.tags ∨ "constraint" ∈ a.tags) ∧
    (∀ (g : ActionsGroup) (d : ActionDict), d.name = none →
      add g d = ({ g with log := g.log ++ [Event.beforeAddAction d] },
        some (PyErr.keyError "name"))) ∧
    (∀ (g : ActionsGroup) (d : ActionDict) (nm : String),
      d.name = some nm → d.displayName = none →
      add g d = ({ g with log := g.log ++ [Event.beforeAddAction d] },
        some (PyErr.keyError "display_name"))) ∧
    (∀ (g : ActionsGroup) (d : ActionDict) (nm dn t : String),
      d.name = some nm → d.displayName = some dn → d.type = some t →
      t ≠ "procedure" → t ≠ "constraint" →
      (add g d).2 = some (PyErr.valueError ("invalid type \x22" ++ t ++ "\x22"))) := by
  refine ⟨?_, ?_, ?_, ?_, ?_, ?_, ?_⟩
  · intro d t ht hp hc
    unfold createActionByType
    have htd : d.type.getD "procedure" = t := by rw [ht]; rfl
    rw [if_neg (by rw [htd]; tauto), htd]
  · intro d htype hname
    unfold createActionByType
    rw [if_pos htype, hname]
  · intro d ht
    unfold createActionByType
    have h1 : d.type.getD "procedure" = "procedure" := by rw [ht]; rfl
    have h2 : ({ d with type := some "procedure" } : ActionDict).type.getD "procedure"
        = "procedure" := rfl
    rw [h1, h2]
    rfl
  · intro d a h
    obtain ⟨_, _, _, _, _, _, _, htags, _⟩ := createActionByType_ok_fields d a h
    rcases htags with h | h <;> rw [h] <;> simp
  · intro g d hname
    unfold add
    simp only [hname]
  · intro g d nm hname hdn
    unfold add
    simp only [hname, hdn]
  · intro g d nm dn t hname hdn ht hp hc
    unfold add
    simp only [hname, hdn]
    have hud : (uniquifiedDict g d nm dn).type = some t := ht
    have herr : createActionByType (uniquifiedDict g d nm dn) = Except.error
        (PyErr.valueError ("invalid type \x22" ++ t ++ "\x22")) := by
      unfold createActionByType
      have htd : (uniquifiedDict g d nm dn).type.getD "procedure" = t := by rw [hud]; rfl
      rw [if_neg (by rw [htd]; tauto), htd]
    rw [herr]

/-- C6, counterexample to the claim as stated: adding a dictionary without a
`'name'` key raises `KeyError` (from the `action_dict['name']` access inside
`_uniquify_name_and_display_name`), not the `ValueError` the claim promises. -/
theorem c6_counterexample :
    (add ⟨"procs", [], [], [], [], []⟩
      ⟨none, none, some (some "f"), none, none, some "X", none, none, none⟩).2
        = some (PyErr.keyError "name") ∧
    ((add ⟨"procs", [], [], [], [], []⟩
      ⟨none, none, some (some "f"), none, none, some "X", none, none, none⟩).2.map
        (fun e => match e with | PyErr.valueError _ => true | _ => false)) = some false := by
  exact ⟨rfl, rfl⟩

/-- Witness for C6: each part of the amended theorem applied at a concrete input. -/
theorem c6_witness :
    createActionByType ⟨some "x", some "filter", some (some "f"), none, none, none, none,
        none, none⟩
      = Except.error (PyErr.valueError "invalid type \x22filter\x22") ∧
    createActionByType ⟨none, none, some (some "f"), none, none, none, none, none, none⟩
      = Except.error (PyErr.valueError "missing required field: \x22name\x22") ∧
    createActionByType ⟨some "x", none, some (some "f"), none, none, none, none, none, none⟩
      = createActionByType ⟨some "x", some "procedure", some (some "f"), none, none, none,
          none, none, none⟩ ∧
    ("procedure" ∈ (⟨"x", ["action", "procedure"],
        [⟨"function", SettingVal.fn (some "f")⟩,
         ⟨"arguments", SettingVal.args []⟩,
         ⟨"enabled", SettingVal.boolean true⟩,
         ⟨"display_name", SettingVal.str none⟩,
         ⟨"description", SettingVal.str none⟩,
         ⟨"action_groups", SettingVal.strList (some ["default_procedures"])⟩,
         ⟨"more_options_expanded", SettingVal.boolean false⟩,
         ⟨"enabled_for_previews", SettingVal.boolean true⟩,
         ⟨"orig_name", SettingVal.str (some "x")⟩]⟩ : Action).tags ∨
      "constraint" ∈ (⟨"x", ["action", "procedure"],
        [⟨"function", SettingVal.fn (some "f")⟩,
         ⟨"arguments", SettingVal.args []⟩,
         ⟨"enabled", SettingVal.boolean true⟩,
         ⟨"display_name", SettingVal.str none⟩,
         ⟨"description", SettingVal.str none⟩,
         ⟨"action_groups", SettingVal.strList (some ["default_procedures"])⟩,
         ⟨"more_options_expanded", SettingVal.boolean false⟩,
         ⟨"enabled_for_previews", SettingVal.boolean true⟩,
         ⟨"orig_name", SettingVal.str (some "x")⟩]⟩ : Action).tags) ∧
    (add ⟨"g", [], [], [], [], []⟩ ⟨some "x", some "filter", some (some "f"), none, none,
        some "X", none, none, none⟩).2
      = some (PyErr.valueError "invalid type \x22filter\x22") := by
  refine ⟨?_, ?_, ?_, ?_, ?_⟩
  · exact c6_action_type_validation.1 _ "filter" rfl (by decide) (by decide)
  · exact c6_action_type_validation.2.1 _ (Or.inl rfl) rfl
  · exact c6_action_type_validation.2.2.1 _ rfl
  · exact c6_action_type_validation.2.2.2.1
      ⟨some "x", none, some (some "f"), none, none, none, none, none, none⟩ _ rfl
  · exact c6_action_type_validation.2.2.2.2.2.2 _ _ "x" "X" "filter" rfl rfl rfl
      (by decide) (by decide)

/-- C8.  Every action built by `_create_action_by_type` (used by both `create` and
`add`) contains a `'function'` setting holding the supplied function, an
`'arguments'` subgroup with exactly the supplied argument settings, a boolean
`'enabled'` setting defaulting to `True` when unspecified, a `'display_name'`
setting, and an `'orig_name'` setting; actions of type `'constraint'` additionally
contain a `'subfilter'` setting whose value defaults to `None`. -/
theorem c8_action_structure :
    ∀ (d : ActionDict) (a : Action), createActionByType d = Except.ok a →
      (∃ f, d.function = some f ∧ a.lookup "function" = some (SettingVal.fn f)) ∧
      a.lookup "arguments" = some (SettingVal.args (d.arguments.getD [])) ∧
      a.args = d.arguments.getD [] ∧
      a.args.length = (d.arguments.getD []).length ∧
      a.lookup "enabled" = some (SettingVal.boolean (d.enabled.getD true)) ∧
      (d.enabled = none → a.lookup "enabled" = some (SettingVal.boolean true)) ∧
      a.lookup "display_name" = some (SettingVal.str d.displayName) ∧
      a.lookup "orig_name" = some (SettingVal.str (some (d.origName.getD a.name))) ∧
      (d.type.getD "procedure" = "constraint" →
        a.lookup "subfilter" = some (SettingVal.str d.subfilter) ∧
        (d.subfilter = none → a.lookup "subfilter" = some (SettingVal.str none))) := by
  intro d a h
  obtain ⟨_, hf, harg, hen, hdisp, horig, _, _, hsub⟩ := createActionByType_ok_fields d a h
  have hargs : a.args = d.arguments.getD [] := by
    unfold Action.args
    rw [harg]
  refine ⟨hf, harg, hargs, by rw [hargs], hen, ?_, hdisp, horig, ?_⟩
  · intro he
    rw [hen, he]
    rfl
  · intro hc
    refine ⟨hsub hc, ?_⟩
    intro hs
    rw [hsub hc, hs]

/-- Witness for C8: the theorem applied to a concrete constraint dictionary with no
`'enabled'`, `'arguments'` or `'subfilter'` fields. -/
theorem c8_witness :
    createActionByType (⟨some "c", some "constraint", some (some "fn"), none, none, none,
        none, none, none⟩ : ActionDict) = Except.ok
      ⟨"c", ["action", "constraint"],
        [⟨"function", SettingVal.fn (some "fn")⟩,
         ⟨"arguments", SettingVal.args []⟩,
         ⟨"enabled", SettingVal.boolean true⟩,
         ⟨"display_name", SettingVal.str none⟩,
         ⟨"description", SettingVal.str none⟩,
         ⟨"action_groups", SettingVal.strList (some ["default_constraints"])⟩,
         ⟨"more_options_expanded", SettingVal.boolean false⟩,
         ⟨"enabled_for_previews", SettingVal.boolean true⟩,
         ⟨"orig_name", SettingVal.str (some "c")⟩,
         ⟨"subfilter", SettingVal.str none⟩]⟩ ∧
    (⟨"c", ["action", "constraint"],
        [⟨"function", SettingVal.fn (some "fn")⟩,
         ⟨"arguments", SettingVal.args []⟩,
         ⟨"enabled", SettingVal.boolean true⟩,
         ⟨"display_name", SettingVal.str none⟩,
         ⟨"description", SettingVal.str none⟩,
         ⟨"action_groups", SettingVal.strList (some ["default_constraints"])⟩,
         ⟨"more_options_expanded", SettingVal.boolean false⟩,
         ⟨"enabled_for_previews", SettingVal.boolean true⟩,
         ⟨"orig_name", SettingVal.str (some "c")⟩,
         ⟨"subfilter", SettingVal.str none⟩]⟩ : Action).lookup "enabled"
      = some (SettingVal.boolean true) ∧
    (⟨"c", ["action", "constraint"],
        [⟨"function", SettingVal.fn (some "fn")⟩,
         ⟨"arguments", SettingVal.args []⟩,
         ⟨"enabled", SettingVal.boolean true⟩,
         ⟨"display_name", SettingVal.str none⟩,
         ⟨"description", SettingVal.str none⟩,
         ⟨"action_groups", SettingVal.strList (some ["default_constraints"])⟩,
         ⟨"more_options_expanded", SettingVal.boolean false⟩,
         ⟨"enabled_for_previews", SettingVal.boolean true⟩,
         ⟨"orig_name", SettingVal.str (some "c")⟩,
         ⟨"subfilter", SettingVal.str none⟩]⟩ : Action).lookup "subfilter"
      = some (SettingVal.str none) := by
  have hc : createActionByType (⟨some "c", some "constraint", some (some "fn"), none, none,
      none, none, none, none⟩ : ActionDict) = Except.ok
      ⟨"c", ["action", "constraint"],
        [⟨"function", SettingVal.fn (some "fn")⟩,
         ⟨"arguments", SettingVal.args []⟩,
         ⟨"enabled", SettingVal.boolean true⟩,
         ⟨"display_name", SettingVal.str none⟩,
         ⟨"description", SettingVal.str none⟩,
         ⟨"action_groups", SettingVal.strList (some ["default_constraints"])⟩,
         ⟨"more_options_expanded", SettingVal.boolean false⟩,
         ⟨"enabled_for_previews", SettingVal.boolean true⟩,
         ⟨"orig_name", SettingVal.str (some "c")⟩,
         ⟨"subfilter", SettingVal.str none⟩]⟩ := rfl
  obtain ⟨_, _, _, _, _, hen0, _, _, hsub⟩ := c8_action_structure _ _ hc
  exact ⟨hc, hen0 rfl, (hsub rfl).2 rfl⟩

/-- C7.  `reorder` and `remove` raise `ValueError` when no stored action record has
the given name; the group (including its event log) is returned unchanged, so no
`'before-...'`/`'after-...'` event is invoked. -/
theorem c7_reorder_remove_missing_name :
    ∀ (g : ActionsGroup) (actionName : String) (newPosition : Int),
      findIndexInAddedData g actionName = none →
      reorder g actionName newPosition = (g, some (PyErr.valueError
        ("action \x22" ++ actionName ++ "\x22 not found in actions named \x22"
          ++ g.name ++ "\x22"))) ∧
      remove g actionName = (g, some (PyErr.valueError
        ("action \x22" ++ actionName ++ "\x22 not found in actions named \x22"
          ++ g.name ++ "\x22"))) := by
  intro g actionName newPosition h
  constructor
  · unfold reorder
    simp only [h]
  · unfold remove
    simp only [h]

/-- Witness for C7: a group with one added action, queried with an absent name. -/
theorem c7_witness :
    reorder ⟨"g", [], [⟨some "a", none, some (some "f"), none, none, none, none, none,
        none⟩], [], [], []⟩ "missing" 1
      = (⟨"g", [], [⟨some "a", none, some (some "f"), none, none, none, none, none,
          none⟩], [], [], []⟩, some (PyErr.valueError
        "action \x22missing\x22 not found in actions named \x22g\x22")) ∧
    remove ⟨"g", [], [⟨some "a", none, some (some "f"), none, none, none, none, none,
        none⟩], [], [], []⟩ "missing"
      = (⟨"g", [], [⟨some "a", none, some (some "f"), none, none, none, none, none,
          none⟩], [], [], []⟩, some (PyErr.valueError
        "action \x22missing\x22 not found in actions named \x22g\x22")) := by
  exact c7_reorder_remove_missing_name _ "missing" 1 (by decide)

/-! ### List lemmas for `reorder` -/

theorem pyInsert_nil {α : Type} (n : Nat) (x : α) : pyInsert [] n x = [x] := by
  simp [pyInsert]

theorem pyInsert_zero {α : Type} (l : List α) (x : α) : pyInsert l 0 x = x :: l := by
  simp [pyInsert]

theorem pyInsert_cons_succ {α : Type} (y : α) (t : List α) (n : Nat) (x : α) :
    pyInsert (y :: t) (n + 1) x = y :: pyInsert t n x := by
  simp [pyInsert]

theorem pyInsert_getElem? {α : Type} :
    ∀ (l : List α) (n : Nat) (x : α), (pyInsert l n x)[min n l.length]? = some x := by
  intro l
  induction l with
  | nil => intro n x; simp [pyInsert_nil]
  | cons y t ih =>
    intro n x
    cases n with
    | zero => simp [pyInsert_zero]
    | succ m =>
      rw [pyInsert_cons_succ]
      have : min (m + 1) (y :: t).length = min m t.length + 1 := by
        simp [List.length_cons]
        omega
      rw [this, List.getElem?_cons_succ]
      exact ih m x

theorem pyInsert_eraseIdx {α : Type} :
    ∀ (l : List α) (n : Nat) (x : α), (pyInsert l n x).eraseIdx (min n l.length) = l := by
  intro l
  induction l with
  | nil => intro n x; simp [pyInsert_nil]
  | cons y t ih =>
    intro n x
    cases n with
    | zero => simp [pyInsert_zero]
    | succ m =>
      rw [pyInsert_cons_succ]
      have : min (m + 1) (y :: t).length = min m t.length + 1 := by
        simp [List.length_cons]
        omega
      rw [this, List.eraseIdx_cons_succ, ih m x]

theorem pyInsert_perm {α : Type} :
    ∀ (l : List α) (n : Nat) (x : α), (pyInsert l n x).Perm (x :: l) := by
  intro l
  induction l with
  | nil => intro n x; rw [pyInsert_nil]
  | cons y t ih =>
    intro n x
    cases n with
    | zero => rw [pyInsert_zero]
    | succ m =>
      rw [pyInsert_cons_succ]
      exact ((ih m x).cons y).trans (List.Perm.swap x y t)

theorem perm_cons_eraseIdx {α : Type} :
    ∀ (l : List α) (i : Nat) (d : α), l[i]? = some d → l.Perm (d :: l.eraseIdx i) := by
  intro l
  induction l with
  | nil => intro i d h; simp at h
  | cons y t ih =>
    intro i d h
    cases i with
    | zero =>
      simp only [List.getElem?_cons_zero, Option.some.injEq] at h
      subst h
      rfl
    | succ j =>
      rw [List.getElem?_cons_succ] at h
      rw [List.eraseIdx_cons_succ]
      exact ((ih j d h).cons y).trans (List.Perm.swap d y (t.eraseIdx j))

theorem getD_eq_of_getElem? {α : Type} :
    ∀ (l : List α) (i : Nat) (d dflt : α), l[i]? = some d → l.getD i dflt = d := by
  intro l
  induction l with
  | nil => intro i d dflt h; simp at h
  | cons y t ih =>
    intro i d dflt h
    cases i with
    | zero =>
      simp only [List.getElem?_cons_zero, Option.some.injEq] at h
      subst h
      rfl
    | succ j =>
      rw [List.getElem?_cons_succ] at h
      exact ih j d dflt h

theorem findIdx?_spec {α : Type} (p : α → Bool) :
    ∀ (l : List α) (i : Nat), l.findIdx? p = some i →
      ∃ x, l[i]? = some x ∧ p x = true := by
  intro l
  induction l with
  | nil => intro i h; simp at h
  | cons y t ih =>
    intro i h
    rw [List.findIdx?_cons] at h
    by_cases hy : p y
    · rw [if_pos hy] at h
      simp only [Option.some.injEq] at h
      subst h
      exact ⟨y, by simp, hy⟩
    · rw [if_neg hy] at h
      rw [List.findIdx?_succ] at h
      simp only [Option.map_eq_some'] at h
      obtain ⟨j, hj, rfl⟩ := h
      obtain ⟨x, hx, hpx⟩ := ih j hj
      exact ⟨x, by rw [List.getElem?_cons_succ]; exact hx, hpx⟩

/-- C4 (amended).  `reorder(actions, action_name, new_position)` moves the named
record: for a negative `new_position` the record lands at index
`max(len + new_position, 0)` (so `-1` is last, `-2` second to last, out-of-range
negative positions clamp to `0`), and for a non-negative `new_position` it lands at
index `min(new_position, len - 1)` — a position past the end places the record at
the end (the claim as stated promises index `new_position` itself, which fails for
out-of-range non-negative positions; see the counterexample).  The `'added'`
subgroup is untouched, the record set is preserved up to permutation, and removing
the record from the result gives the original list without the record. -/
theorem c4_reorder_moves_record :
    ∀ (g : ActionsGroup) (actionName : String) (newPosition : Int) (cur : Nat),
      WFBase g →
      findIndexInAddedData g actionName = some cur →
      (reorder g actionName newPosition).2 = none ∧
      (reorder g actionName newPosition).1.added = g.added ∧
      ∃ d, g.addedData[cur]? = some d ∧ d.name = some actionName ∧
        (reorder g actionName newPosition).1.addedData[
          (if newPosition < 0 then (max ((g.addedData.length : Int) + newPosition) 0).toNat
           else min newPosition.toNat (g.addedData.length - 1))]? = some d ∧
        (reorder g actionName newPosition).1.addedData.eraseIdx
          (if newPosition < 0 then (max ((g.addedData.length : Int) + newPosition) 0).toNat
           else min newPosition.toNat (g.addedData.length - 1))
          = g.addedData.eraseIdx cur ∧
        (reorder g actionName newPosition).1.addedData.Perm g.addedData := by
  intro g actionName newPosition cur hWF hfind
  obtain ⟨d, hd, hpd⟩ := findIdx?_spec _ g.addedData cur hfind
  have hdn : d.name = some actionName := of_decide_eq_true hpd
  have hcur : cur < g.addedData.length := by
    by_contra hlt
    push_neg at hlt
    rw [List.getElem?_eq_none hlt] at hd
    cases hd
  have hmem : d ∈ g.addedData := List.getElem?_mem hd
  have hnmem : some actionName ∈ g.addedData.map ActionDict.name := by
    rw [← hdn]
    exact List.mem_map_of_mem _ hmem
  rw [hWF.namesEq] at hnmem
  obtain ⟨b, hb, hbn⟩ := List.mem_map.mp hnmem
  have hbn' : b.name = actionName := by
    simpa using hbn
  obtain ⟨action, hfound⟩ : ∃ action,
      g.added.find? (fun a => a.name = actionName) = some action := by
    cases hf : g.added.find? (fun a => a.name = actionName) with
    | some action => exact ⟨action, rfl⟩
    | none =>
      exfalso
      have := List.find?_eq_none.mp hf b hb
      simp [hbn'] at this
  have hgetD : g.addedData.getD cur default = d := getD_eq_of_getElem? _ _ _ _ hd
  have haD : (reorder g actionName newPosition).1.addedData
      = pyInsert (g.addedData.eraseIdx cur)
          (if newPosition < 0 then
            (max (((g.addedData.eraseIdx cur).length : Int) + newPosition + 1) 0).toNat
           else newPosition.toNat) d := by
    unfold reorder
    simp only [hfind, hfound, invokeEvent, hgetD]
  have hsnd : (reorder g actionName newPosition).2 = none := by
    unfold reorder
    simp only [hfind, hfound, invokeEvent]
  have hadded : (reorder g actionName newPosition).1.added = g.added := by
    unfold reorder
    simp only [hfind, hfound, invokeEvent]
  have hlen' : (g.addedData.eraseIdx cur).length = g.addedData.length - 1 := by
    have := List.length_eraseIdx_add_one hcur
    omega
  have hlen1 : 1 ≤ g.addedData.length := by omega
  have hfi : (if newPosition < 0 then
        (max ((g.addedData.length : Int) + newPosition) 0).toNat
       else min newPosition.toNat (g.addedData.length - 1))
      = min (if newPosition < 0 then
          (max (((g.addedData.eraseIdx cur).length : Int) + newPosition + 1) 0).toNat
         else newPosition.toNat) (g.addedData.eraseIdx cur).length := by
    by_cases hp : newPosition < 0
    · simp only [if_pos hp]
      rw [hlen']
      omega
    · simp only [if_neg hp]
      rw [hlen']
  refine ⟨hsnd, hadded, d, hd, hdn, ?_, ?_, ?_⟩
  · rw [haD, hfi]
    exact pyInsert_getElem? _ _ _
  · rw [haD, hfi]
    exact pyInsert_eraseIdx _ _ _
  · rw [haD]
    exact (pyInsert_perm _ _ _).trans (perm_cons_eraseIdx g.addedData cur d hd).symm

/-- C4, counterexample to the claim as stated: in a two-record group,
`reorder(actions, 'a', 5)` does not move the record to index `5` — the resulting
pipeline order is `['b', 'a']`, with the record at index `1` (the end). -/
theorem c4_counterexample :
    (create "g" (some
        [⟨some "a", none, some (some "f"), none, none, some "A", none, none, none⟩,
         ⟨some "b", none, some (some "f"), none, none, some "B", none, none, none⟩])).map
      (fun g => ((reorder g "a" 5).1.addedData.map ActionDict.name, (reorder g "a" 5).2))
      = Except.ok ([some "b", some "a"], none) := by
  rfl

/-- Witness for C4: a two-record group, moving `'a'` to position `-1` (the end). -/
theorem c4_witness :
    (reorder ⟨"g", [⟨"a", ["action", "procedure"], []⟩, ⟨"b", ["action", "procedure"], []⟩],
        [⟨some "a", none, none, none, none, none, none, none, none⟩,
         ⟨some "b", none, none, none, none, none, none, none, none⟩], [], [], []⟩
      "a" (-1)).2 = none ∧
    (reorder ⟨"g", [⟨"a", ["action", "procedure"], []⟩, ⟨"b", ["action", "procedure"], []⟩],
        [⟨some "a", none, none, none, none, none, none, none, none⟩,
         ⟨some "b", none, none, none, none, none, none, none, none⟩], [], [], []⟩
      "a" (-1)).1.added
      = (⟨"g", [⟨"a", ["action", "procedure"], []⟩, ⟨"b", ["action", "procedure"], []⟩],
        [⟨some "a", none, none, none, none, none, none, none, none⟩,
         ⟨some "b", none, none, none, none, none, none, none, none⟩], [], [], []⟩
          : ActionsGroup).added ∧
    ∃ d, ((⟨"g", [⟨"a", ["action", "procedure"], []⟩, ⟨"b", ["action", "procedure"], []⟩],
        [⟨some "a", none, none, none, none, none, none, none, none⟩,
         ⟨some "b", none, none, none, none, none, none, none, none⟩], [], [], []⟩
          : ActionsGroup).addedData[(0 : Nat)]? = some d) ∧ d.name = some "a" ∧
      (reorder ⟨"g", [⟨"a", ["action", "procedure"], []⟩, ⟨"b", ["action", "procedure"], []⟩],
        [⟨some "a", none, none, none, none, none, none, none, none⟩,
         ⟨some "b", none, none, none, none, none, none, none, none⟩], [], [], []⟩
        "a" (-1)).1.addedData[
          (if (-1 : Int) < 0 then
            (max (((⟨"g", [⟨"a", ["action", "procedure"], []⟩,
                ⟨"b", ["action", "procedure"], []⟩],
              [⟨some "a", none, none, none, none, none, none, none, none⟩,
               ⟨some "b", none, none, none, none, none, none, none, none⟩], [], [], []⟩
                : ActionsGroup).addedData.length : Int) + (-1)) 0).toNat
           else min (Int.toNat (-1))
            ((⟨"g", [⟨"a", ["action", "procedure"], []⟩, ⟨"b", ["action", "procedure"], []⟩],
              [⟨some "a", none, none, none, none, none, none, none, none⟩,
               ⟨some "b", none, none, none, none, none, none, none, none⟩], [], [], []⟩
                : ActionsGroup).addedData.length - 1))]? = some d ∧
      (reorder ⟨"g", [⟨"a", ["action", "procedure"], []⟩, ⟨"b", ["action", "procedure"], []⟩],
        [⟨some "a", none, none, none, none, none, none, none, none⟩,
         ⟨some "b", none, none, none, none, none, none, none, none⟩], [], [], []⟩
        "a" (-1)).1.addedData.eraseIdx
          (if (-1 : Int) < 0 then
            (max (((⟨"g", [⟨"a", ["action", "procedure"], []⟩,
                ⟨"b", ["action", "procedure"], []⟩],
              [⟨some "a", none, none, none, none, none, none, none, none⟩,
               ⟨some "b", none, none, none, none, none, none, none, none⟩], [], [], []⟩
                : ActionsGroup).addedData.length : Int) + (-1)) 0).toNat
           else min (Int.toNat (-1))
            ((⟨"g", [⟨"a", ["action", "procedure"], []⟩, ⟨"b", ["action", "procedure"], []⟩],
              [⟨some "a", none, none, none, none, none, none, none, none⟩,
               ⟨some "b", none, none, none, none, none, none, none, none⟩], [], [], []⟩
                : ActionsGroup).addedData.length - 1))
        = (⟨"g", [⟨"a", ["action", "procedure"], []⟩, ⟨"b", ["action", "procedure"], []⟩],
            [⟨some "a", none, none, none, none, none, none, none, none⟩,
             ⟨some "b", none, none, none, none, none, none, none, none⟩], [], [], []⟩
              : ActionsGroup).addedData.eraseIdx 0 ∧
      (reorder ⟨"g", [⟨"a", ["action", "procedure"], []⟩, ⟨"b", ["action", "procedure"], []⟩],
        [⟨some "a", none, none, none, none, none, none, none, none⟩,
         ⟨some "b", none, none, none, none, none, none, none, none⟩], [], [], []⟩
        "a" (-1)).1.addedData.Perm
        (⟨"g", [⟨"a", ["action", "procedure"], []⟩, ⟨"b", ["action", "procedure"], []⟩],
          [⟨some "a", none, none, none, none, none, none, none, none⟩,
           ⟨some "b", none, none, none, none, none, none, none, none⟩], [], [], []⟩
            : ActionsGroup).addedData := by
  exact c4_reorder_moves_record
    ⟨"g", [⟨"a", ["action", "procedure"], []⟩, ⟨"b", ["action", "procedure"], []⟩],
      [⟨some "a", none, none, none, none, none, none, none, none⟩,
       ⟨some "b", none, none, none, none, none, none, none, none⟩], [], [], []⟩
    "a" (-1) 0 ⟨by decide, by decide, by decide⟩ (by decide)

/-- C3.  Each mutating pipeline operation brackets its mutation between the matching
`'before-...'` and `'after-...'` events: when the before event is invoked the group
still holds its original actions and stored data, the mutation happens next, and the
after event is invoked on the fully mutated group (for `add` with the created action
and the original dictionary, for `reorder` with the positions, and for `clear` with
the clearing done before `'after-clear-actions'` fires). -/
theorem c3_events_bracket_mutations :
    (∀ (g : ActionsGroup) (d : ActionDict) (g' : ActionsGroup), add g d = (g', none) →
      ∃ a d',
        (invokeEvent g (Event.beforeAddAction d)).1.added = g.added ∧
        (invokeEvent g (Event.beforeAddAction d)).1.addedData = g.addedData ∧
        (invokeEvent g (Event.beforeAddAction d)).1.log = g.log ++ [Event.beforeAddAction d] ∧
        add g d = ((invokeEvent
          { (invokeEvent g (Event.beforeAddAction d)).1 with
              added := g.added ++ [a], addedData := g.addedData ++ [d'] }
          (Event.afterAddAction a d)).1, none) ∧
        g'.added = g.added ++ [a] ∧ g'.addedData = g.addedData ++ [d'] ∧
        g'.log = g.log ++ [Event.beforeAddAction d, Event.afterAddAction a d]) ∧
    (∀ (g : ActionsGroup) (actionName : String) (newPosition : Int) (g' : ActionsGroup),
      reorder g actionName newPosition = (g', none) →
      ∃ action cur np,
        findIndexInAddedData g actionName = some cur ∧
        (invokeEvent g (Event.beforeReorderAction action cur)).1.added = g.added ∧
        (invokeEvent g (Event.beforeReorderAction action cur)).1.addedData = g.addedData ∧
        reorder g actionName newPosition = ((invokeEvent
          { (invokeEvent g (Event.beforeReorderAction action cur)).1 with
              addedData := pyInsert (g.addedData.eraseIdx cur) np
                (g.addedData.getD cur default) }
          (Event.afterReorderAction action cur np)).1, none) ∧
        g'.log = g.log ++ [Event.beforeReorderAction action cur,
          Event.afterReorderAction action cur np]) ∧
    (∀ g : ActionsGroup,
      (invokeEvent g Event.beforeClearActions).1.added = g.added ∧
      (invokeEvent g Event.beforeClearActions).1.addedData = g.addedData ∧
      (invokeEvent g Event.beforeClearActions).1.log = g.log ++ [Event.beforeClearActions] ∧
      clear g
        = invokeEvent (clearCore (invokeEvent g Event.beforeClearActions).1)
            Event.afterClearActions ∧
      (clearCore (invokeEvent g Event.beforeClearActions).1).addedData
        = g.addedDataDefault) := by
  refine ⟨?_, ?_, ?_⟩
  · intro g d g' h
    have hok : (add g d).2 = none := by rw [h]
    obtain ⟨nm, dn, a, hn, hdn, hca, hga, hstate⟩ := add_ok_state g d hok
    have hpair : add g d = ((add g d).1, (add g d).2) := rfl
    rw [hok, hstate] at hpair
    have hg' : g' = (add g d).1 := by
      have := congrArg Prod.fst h
      exact this.symm
    refine ⟨a, uniquifiedDict g d nm dn, rfl, rfl, rfl, ?_, ?_, ?_, ?_⟩
    · rw [hpair]
      simp [invokeEvent, List.append_assoc]
    · rw [hg', hstate]
    · rw [hg', hstate]
    · rw [hg', hstate]
  · intro g actionName newPosition g' h
    have hok : (reorder g actionName newPosition).2 = none := by rw [h]
    unfold reorder at hok
    cases hfind : findIndexInAddedData g actionName with
    | none => rw [hfind] at hok; exact absurd hok (by simp)
    | some cur =>
      rw [hfind] at hok
      cases hfound : g.added.find? (fun a => a.name = actionName) with
      | none => rw [hfound] at hok; exact absurd hok (by simp)
      | some action =>
        refine ⟨action, cur,
          (if newPosition < 0 then
            (max (((g.addedData.eraseIdx cur).length : Int) + newPosition + 1) 0).toNat
           else newPosition.toNat), rfl, rfl, rfl, ?_, ?_⟩
        · unfold reorder
          simp only [hfind, hfound, invokeEvent]
        · have hg' : g' = (reorder g actionName newPosition).1 := by
            have := congrArg Prod.fst h
            exact this.symm
          rw [hg']
          unfold reorder
          simp only [hfind, hfound, invokeEvent]
          simp [List.append_assoc]
  · intro g
    exact ⟨rfl, rfl, rfl, rfl, rfl⟩

/-- Witness for C3: the three parts applied to concrete groups (an `add` of a fresh
dictionary, a `reorder` to the last position, and a `clear`). -/
theorem c3_witness :
    (∃ a d',
      (invokeEvent (⟨"g", [], [], [], [], []⟩ : ActionsGroup)
        (Event.beforeAddAction ⟨some "x", none, some (some "f"), none, none, some "X", none,
          none, none⟩)).1.added = (⟨"g", [], [], [], [], []⟩ : ActionsGroup).added ∧
      (invokeEvent (⟨"g", [], [], [], [], []⟩ : ActionsGroup)
        (Event.beforeAddAction ⟨some "x", none, some (some "f"), none, none, some "X", none,
          none, none⟩)).1.addedData = (⟨"g", [], [], [], [], []⟩ : ActionsGroup).addedData ∧
      (invokeEvent (⟨"g", [], [], [], [], []⟩ : ActionsGroup)
        (Event.beforeAddAction ⟨some "x", none, some (some "f"), none, none, some "X", none,
          none, none⟩)).1.log = (⟨"g", [], [], [], [], []⟩ : ActionsGroup).log
            ++ [Event.beforeAddAction ⟨some "x", none, some (some "f"), none, none, some "X",
              none, none, none⟩] ∧
      add (⟨"g", [], [], [], [], []⟩ : ActionsGroup) ⟨some "x", none, some (some "f"), none,
          none, some "X", none, none, none⟩
        = ((invokeEvent
          { (invokeEvent (⟨"g", [], [], [], [], []⟩ : ActionsGroup)
              (Event.beforeAddAction ⟨some "x", none, some (some "f"), none, none, some "X",
                none, none, none⟩)).1 with
              added := (⟨"g", [], [], [], [], []⟩ : ActionsGroup).added ++ [a],
              addedData := (⟨"g", [], [], [], [], []⟩ : ActionsGroup).addedData ++ [d'] }
          (Event.afterAddAction a ⟨some "x", none, some (some "f"), none, none, some "X",
            none, none, none⟩)).1, none) ∧
      (add (⟨"g", [], [], [], [], []⟩ : ActionsGroup) ⟨some "x", none, some (some "f"), none,
          none, some "X", none, none, none⟩).1.added
        = (⟨"g", [], [], [], [], []⟩ : ActionsGroup).added ++ [a] ∧
      (add (⟨"g", [], [], [], [], []⟩ : ActionsGroup) ⟨some "x", none, some (some "f"), none,
          none, some "X", none, none, none⟩).1.addedData
        = (⟨"g", [], [], [], [], []⟩ : ActionsGroup).addedData ++ [d'] ∧
      (add (⟨"g", [], [], [], [], []⟩ : ActionsGroup) ⟨some "x", none, some (some "f"), none,
          none, some "X", none, none, none⟩).1.log
        = (⟨"g", [], [], [], [], []⟩ : ActionsGroup).log
            ++ [Event.beforeAddAction ⟨some "x", none, some (some "f"), none, none, some "X",
                  none, none, none⟩,
                Event.afterAddAction a ⟨some "x", none, some (some "f"), none, none, some "X",
                  none, none, none⟩]) ∧
    (∃ action cur np,
      findIndexInAddedData ⟨"g", [⟨"a", ["action", "procedure"], []⟩,
          ⟨"b", ["action", "procedure"], []⟩],
        [⟨some "a", none, none, none, none, none, none, none, none⟩,
         ⟨some "b", none, none, none, none, none, none, none, none⟩], [], [], []⟩ "a"
        = some cur ∧
      (invokeEvent (⟨"g", [⟨"a", ["action", "procedure"], []⟩,
          ⟨"b", ["action", "procedure"], []⟩],
        [⟨some "a", none, none, none, none, none, none, none, none⟩,
         ⟨some "b", none, none, none, none, none, none, none, none⟩], [], [], []⟩
          : ActionsGroup)
        (Event.beforeReorderAction action cur)).1.added
        = (⟨"g", [⟨"a", ["action", "procedure"], []⟩, ⟨"b", ["action", "procedure"], []⟩],
          [⟨some "a", none, none, none, none, none, none, none, none⟩,
           ⟨some "b", none, none, none, none, none, none, none, none⟩], [], [], []⟩
            : ActionsGroup).added ∧
      (invokeEvent (⟨"g", [⟨"a", ["action", "procedure"], []⟩,
          ⟨"b", ["action", "procedure"], []⟩],
        [⟨some "a", none, none, none, none, none, none, none, none⟩,
         ⟨some "b", none, none, none, none, none, none, none, none⟩], [], [], []⟩
          : ActionsGroup)
        (Event.beforeReorderAction action cur)).1.addedData
        = (⟨"g", [⟨"a", ["action", "procedure"], []⟩, ⟨"b", ["action", "procedure"], []⟩],
          [⟨some "a", none, none, none, none, none, none, none, none⟩,
           ⟨some "b", none, none, none, none, none, none, none, none⟩], [], [], []⟩
            : ActionsGroup).addedData ∧
      reorder (⟨"g", [⟨"a", ["action", "procedure"], []⟩, ⟨"b", ["action", "procedure"], []⟩],
        [⟨some "a", none, none, none, none, none, none, none, none⟩,
         ⟨some "b", none, none, none, none, none, none, none, none⟩], [], [], []⟩
          : ActionsGroup) "a" (-1)
        = ((invokeEvent
          { (invokeEvent (⟨"g", [⟨"a", ["action", "procedure"], []⟩,
              ⟨"b", ["action", "procedure"], []⟩],
            [⟨some "a", none, none, none, none, none, none, none, none⟩,
             ⟨some "b", none, none, none, none, none, none, none, none⟩], [], [], []⟩
              : ActionsGroup)
            (Event.beforeReorderAction action cur)).1 with
              addedData := pyInsert
                ((⟨"g", [⟨"a", ["action", "procedure"], []⟩,
                    ⟨"b", ["action", "procedure"], []⟩],
                  [⟨some "a", none, none, none, none, none, none, none, none⟩,
                   ⟨some "b", none, none, none, none, none, none, none, none⟩], [], [], []⟩
                    : ActionsGroup).addedData.eraseIdx cur) np
                ((⟨"g", [⟨"a", ["action", "procedure"], []⟩,
                    ⟨"b", ["action", "procedure"], []⟩],
                  [⟨some "a", none, none, none, none, none, none, none, none⟩,
                   ⟨some "b", none, none, none, none, none, none, none, none⟩], [], [], []⟩
                    : ActionsGroup).addedData.getD cur default) }
          (Event.afterReorderAction action cur np)).1, none) ∧
      (reorder (⟨"g", [⟨"a", ["action", "procedure"], []⟩,
          ⟨"b", ["action", "procedure"], []⟩],
        [⟨some "a", none, none, none, none, none, none, none, none⟩,
         ⟨some "b", none, none, none, none, none, none, none, none⟩], [], [], []⟩
          : ActionsGroup) "a" (-1)).1.log
        = (⟨"g", [⟨"a", ["action", "procedure"], []⟩, ⟨"b", ["action", "procedure"], []⟩],
          [⟨some "a", none, none, none, none, none, none, none, none⟩,
           ⟨some "b", none, none, none, none, none, none, none, none⟩], [], [], []⟩
            : ActionsGroup).log
          ++ [Event.beforeReorderAction action cur,
              Event.afterReorderAction action cur np]) ∧
    ((invokeEvent (⟨"g", [], [], [], [], []⟩ : ActionsGroup)
        Event.beforeClearActions).1.added = (⟨"g", [], [], [], [], []⟩ : ActionsGroup).added ∧
      (invokeEvent (⟨"g", [], [], [], [], []⟩ : ActionsGroup)
        Event.beforeClearActions).1.addedData
        = (⟨"g", [], [], [], [], []⟩ : ActionsGroup).addedData ∧
      (invokeEvent (⟨"g", [], [], [], [], []⟩ : ActionsGroup)
        Event.beforeClearActions).1.log
        = (⟨"g", [], [], [], [], []⟩ : ActionsGroup).log ++ [Event.beforeClearActions] ∧
      clear (⟨"g", [], [], [], [], []⟩ : ActionsGroup)
        = invokeEvent (clearCore (invokeEvent (⟨"g", [], [], [], [], []⟩ : ActionsGroup)
            Event.beforeClearActions).1) Event.afterClearActions ∧
      (clearCore (invokeEvent (⟨"g", [], [], [], [], []⟩ : ActionsGroup)
          Event.beforeClearActions).1).addedData
        = (⟨"g", [], [], [], [], []⟩ : ActionsGroup).addedDataDefault) := by
  refine ⟨?_, ?_, ?_⟩
  · exact c3_events_bracket_mutations.1 ⟨"g", [], [], [], [], []⟩
      ⟨some "x", none, some (some "f"), none, none, some "X", none, none, none⟩
      (add ⟨"g", [], [], [], [], []⟩ ⟨some "x", none, some (some "f"), none, none, some "X",
        none, none, none⟩).1 rfl
  · exact c3_events_bracket_mutations.2.1
      ⟨"g", [⟨"a", ["action", "procedure"], []⟩, ⟨"b", ["action", "procedure"], []⟩],
        [⟨some "a", none, none, none, none, none, none, none, none⟩,
         ⟨some "b", none, none, none, none, none, none, none, none⟩], [], [], []⟩
      "a" (-1)
      (reorder ⟨"g", [⟨"a", ["action", "procedure"], []⟩, ⟨"b", ["action", "procedure"], []⟩],
        [⟨some "a", none, none, none, none, none, none, none, none⟩,
         ⟨some "b", none, none, none, none, none, none, none, none⟩], [], [], []⟩
        "a" (-1)).1 rfl
  · exact c3_events_bracket_mutations.2.2 ⟨"g", [], [], [], [], []⟩

/-- `_clear` on a well-formed group empties `'added'` (every added action is walked,
hence removed) and resets the stored data to its default. -/
theorem clearCore_eq (g : ActionsGroup) (hWF : WFBase g) (L : List Event) :
    clearCore { g with log := L }
      = { g with added := [], addedData := g.addedDataDefault, addedDataValues := [],
                 log := L } := by
  unfold clearCore
  have hwalk : walk { g with log := L } = g.added := by
    have h1 : walk { g with log := L } = walk g := rfl
    rw [h1, walk_eq_added g hWF]
  rw [hwalk]
  have hfil : g.added.filter
      (fun a => !((g.added.map Action.name).contains a.name)) = [] := by
    rw [List.filter_eq_nil_iff]
    intro a ha
    simp only [Bool.not_eq_true', Bool.not_eq_false]
    exact List.elem_eq_true_of_mem (List.mem_map_of_mem Action.name ha)
  simp only [hfil]

theorem create_ok_fold (name : String) (initialActions : Option (List ActionDict))
    (g₀ : ActionsGroup) (h : create name initialActions = Except.ok g₀) :
    createActionsFromAddedData
      { name := name, added := [], addedData := getInitialAddedData initialActions,
        addedDataDefault := getInitialAddedData initialActions,
        addedDataValues := [], log := [] } = (g₀, none) := by
  unfold create at h
  replace h : (match createActionsFromAddedData
      { name := name, added := [], addedData := getInitialAddedData initialActions,
        addedDataDefault := getInitialAddedData initialActions,
        addedDataValues := [], log := [] } with
    | (g', none) => Except.ok g'
    | (_, some e) => Except.error e) = Except.ok g₀ := h
  rcases hres : createActionsFromAddedData
      { name := name, added := [], addedData := getInitialAddedData initialActions,
        addedDataDefault := getInitialAddedData initialActions,
        addedDataValues := [], log := [] } with ⟨g', err⟩
  rw [hres] at h
  cases err with
  | some e => exact absurd h (by simp)
  | none =>
    replace h : Except.ok g' = Except.ok g₀ := h
    simp only [Except.ok.injEq] at h
    rw [← h]

/-- C9.  `clear` does not leave a group created by `create(name, initial_actions)`
empty: it removes all added actions, resets `'_added_data'` to the initial data, and
the `'after-clear-actions'` handler re-creates the actions, so after `clear` the
added actions and stored data are exactly those the freshly created group had (and
the empty list when `initial_actions` was `None`). -/
theorem c9_clear_restores_initial_actions :
    ∀ (name : String) (initialActions : Option (List ActionDict)) (g₀ g : ActionsGroup),
      create name initialActions = Except.ok g₀ →
      WFBase g →
      g.addedDataDefault = g₀.addedDataDefault →
      (clear g).2 = none ∧ (clear g).1.added = g₀.added ∧
      (clear g).1.addedData = g₀.addedData ∧
      (initialActions = none → (clear g).1.added = []) := by
  intro name initialActions g₀ g hcreate hWF hdef
  have hfold := create_ok_fold name initialActions g₀ hcreate
  obtain ⟨_, hdata0, hdef0, _⟩ := create_ok_spec name initialActions g₀ hcreate
  have hinit : g.addedDataDefault = getInitialAddedData initialActions := by
    rw [hdef, hdef0]
  have hcc : clearCore { g with log := g.log ++ [Event.beforeClearActions] }
      = { g with added := [], addedData := g.addedDataDefault, addedDataValues := [],
                 log := g.log ++ [Event.beforeClearActions] } := clearCore_eq g hWF _
  have hclear : clear g
      = createActionsFromData
          { g with added := [], addedData := g.addedDataDefault, addedDataValues := [],
                   log := (g.log ++ [Event.beforeClearActions]) ++ [Event.afterClearActions] }
          g.addedDataDefault := by
    have h1 : clear g = invokeEvent
        (clearCore { g with log := g.log ++ [Event.beforeClearActions] })
        Event.afterClearActions := rfl
    rw [h1, hcc]
    rfl
  have hcongr := createActionsFromData_congr g.addedDataDefault
    { g with added := [], addedData := g.addedDataDefault, addedDataValues := [],
             log := (g.log ++ [Event.beforeClearActions]) ++ [Event.afterClearActions] }
    { name := name, added := [], addedData := getInitialAddedData initialActions,
      addedDataDefault := getInitialAddedData initialActions, addedDataValues := [],
      log := [] } rfl
  have hrhs : createActionsFromData
      { name := name, added := [], addedData := getInitialAddedData initialActions,
        addedDataDefault := getInitialAddedData initialActions, addedDataValues := [],
        log := [] } g.addedDataDefault = (g₀, none) := by
    rw [hinit]
    exact hfold
  have hfields := createActionsFromData_fields g.addedDataDefault
    { g with added := [], addedData := g.addedDataDefault, addedDataValues := [],
             log := (g.log ++ [Event.beforeClearActions]) ++ [Event.afterClearActions] }
  rw [hclear]
  refine ⟨?_, ?_, ?_, ?_⟩
  · rw [hcongr.2, hrhs]
  · rw [hcongr.1, hrhs]
  · rw [hfields.2.1]
    show g.addedDataDefault = g₀.addedData
    rw [hinit, hdata0]
  · intro hnone
    rw [hcongr.1, hrhs]
    subst hnone
    have hg₀ : (g₀, (none : Option PyErr))
        = (({ name := name, added := [], addedData := [], addedDataDefault := [],
              addedDataValues := [], log := [] } : ActionsGroup), (none : Option PyErr)) := by
      rw [← hfold]
      rfl
    have hg₀' : g₀ = ({ name := name, added := [], addedData := [], addedDataDefault := [],
                        addedDataValues := [], log := [] } : ActionsGroup) :=
      congrArg Prod.fst hg₀
    rw [hg₀']

/-- Witness for C9: a group created with one initial action, then emptied by hand
(simulating removal) while keeping the stored default, is restored by `clear` to the
freshly created group's actions. -/
theorem c9_witness :
    (clear ⟨"g", [], [],
        [⟨some "a", none, some (some "f"), none, none, none, none, none, none⟩],
        [], []⟩).2 = none ∧
    (clear ⟨"g", [], [],
        [⟨some "a", none, some (some "f"), none, none, none, none, none, none⟩],
        [], []⟩).1.added
      = (⟨"g",
          [⟨"a", ["action", "procedure"],
            [⟨"function", SettingVal.fn (some "f")⟩,
             ⟨"arguments", SettingVal.args []⟩,
             ⟨"enabled", SettingVal.boolean true⟩,
             ⟨"display_name", SettingVal.str none⟩,
             ⟨"description", SettingVal.str none⟩,
             ⟨"action_groups", SettingVal.strList (some ["default_procedures"])⟩,
             ⟨"more_options_expanded", SettingVal.boolean false⟩,
             ⟨"enabled_for_previews", SettingVal.boolean true⟩,
             ⟨"orig_name", SettingVal.str (some "a")⟩]⟩],
          [⟨some "a", none, some (some "f"), none, none, none, none, none, none⟩],
          [⟨some "a", none, some (some "f"), none, none, none, none, none, none⟩],
          [],
          [Event.beforeAddAction ⟨some "a", none, some (some "f"), none, none, none, none,
            none, none⟩,
           Event.afterAddAction
            ⟨"a", ["action", "procedure"],
              [⟨"function", SettingVal.fn (some "f")⟩,
               ⟨"arguments", SettingVal.args []⟩,
               ⟨"enabled", SettingVal.boolean true⟩,
               ⟨"display_name", SettingVal.str none⟩,
               ⟨"description", SettingVal.str none⟩,
               ⟨"action_groups", SettingVal.strList (some ["default_procedures"])⟩,
               ⟨"more_options_expanded", SettingVal.boolean false⟩,
               ⟨"enabled_for_previews", SettingVal.boolean true⟩,
               ⟨"orig_name", SettingVal.str (some "a")⟩]⟩
            ⟨some "a", none, some (some "f"), none, none, none, none, none, none⟩]⟩
          : ActionsGroup).added := by
  have h := c9_clear_restores_initial_actions "g"
    (some [⟨some "a", none, some (some "f"), none, none, none, none, none, none⟩])
    ⟨"g",
      [⟨"a", ["action", "procedure"],
        [⟨"function", SettingVal.fn (some "f")⟩,
         ⟨"arguments", SettingVal.args []⟩,
         ⟨"enabled", SettingVal.boolean true⟩,
         ⟨"display_name", SettingVal.str none⟩,
         ⟨"description", SettingVal.str none⟩,
         ⟨"action_groups", SettingVal.strList (some ["default_procedures"])⟩,
         ⟨"more_options_expanded", SettingVal.boolean false⟩,
         ⟨"enabled_for_previews", SettingVal.boolean true⟩,
         ⟨"orig_name", SettingVal.str (some "a")⟩]⟩],
      [⟨some "a", none, some (some "f"), none, none, none, none, none, none⟩],
      [⟨some "a", none, some (some "f"), none, none, none, none, none, none⟩],
      [],
      [Event.beforeAddAction ⟨some "a", none, some (some "f"), none, none, none, none,
        none, none⟩,
       Event.afterAddAction
        ⟨"a", ["action", "procedure"],
          [⟨"function", SettingVal.fn (some "f")⟩,
           ⟨"arguments", SettingVal.args []⟩,
           ⟨"enabled", SettingVal.boolean true⟩,
           ⟨"display_name", SettingVal.str none⟩,
           ⟨"description", SettingVal.str none⟩,
           ⟨"action_groups", SettingVal.strList (some ["default_procedures"])⟩,
           ⟨"more_options_expanded", SettingVal.boolean false⟩,
           ⟨"enabled_for_previews", SettingVal.boolean true⟩,
           ⟨"orig_name", SettingVal.str (some "a")⟩]⟩
        ⟨some "a", none, some (some "f"), none, none, none, none, none, none⟩]⟩
    ⟨"g", [], [],
      [⟨some "a", none, some (some "f"), none, none, none, none, none, none⟩],
      [], []⟩
    rfl ⟨rfl, by (intro a ha; cases ha), by decide⟩ rfl
  exact ⟨h.1, h.2.1⟩

/-! ### Array-element / array-length syncing (`actions.py`, PDB procedures) -/

/-- `action.get_value('is_pdb_procedure', True)`: the guard under which
`_connect_events_to_sync_array_and_array_length_arguments` connects the handlers. -/
def isPdbProcedureAction (a : Action) : Bool :=
  a.getBool "is_pdb_procedure" true

/-- Replace the value of the `'arguments'` setting. -/
def Action.setArgs (a : Action) (l : List Arg) : Action :=
  let replaceVal := fun s : ASetting =>
    if s.name = "arguments" then (⟨s.name, SettingVal.args l⟩ : ASetting) else s
  { a with settings := a.settings.map replaceVal }

def incrementArg : Arg → Arg
  | Arg.scalar n v => Arg.scalar n (v + 1)
  | a => a

def decrementArg : Arg → Arg
  | Arg.scalar n v => Arg.scalar n (v - 1)
  | a => a

/-- `array_setting.add_element(value)` on the argument at index `j` (appending the
element), together with the `'after-add-element'` handler that
`_connect_events_to_sync_array_and_array_length_arguments` connects for PDB
procedures: the setting immediately preceding the array (its length argument, paired
by `_get_array_length_and_array_settings`) has its value incremented by 1. -/
def actionAddElement (a : Action) (j : Nat) (x : Int) : Action :=
  match a.args[j]? with
  | some (Arg.array n es) =>
    let args₁ := a.args.set j (Arg.array n (es ++ [x]))
    let args₂ :=
      if isPdbProcedureAction a = true ∧ 1 ≤ j then
        match args₁[j - 1]? with
        | some p => args₁.set (j - 1) (incrementArg p)
        | none => args₁
      else args₁
    a.setArgs args₂
  | _ => a

/-- Deleting the element at index `i` of the array argument at index `j`: the
`'before-delete-element'` handler decrements the preceding length argument, then the
element is removed.  Only in-range deletions are modelled (an out-of-range index
raises in the host library and is out of scope here). -/
def actionDeleteElement (a : Action) (j : Nat) (i : Nat) : Action :=
  match a.args[j]? with
  | some (Arg.array n es) =>
    if i < es.length then
      let args₁ :=
        if isPdbProcedureAction a = true ∧ 1 ≤ j then
          match a.args[j - 1]? with
          | some p => a.args.set (j - 1) (decrementArg p)
          | none => a.args
        else a.args
      a.setArgs (args₁.set j (Arg.array n (es.eraseIdx i)))
    else a
  | _ => a

inductive ElemOp where
  | addElem (argIdx : Nat) (x : Int)
  | delElem (argIdx : Nat) (elemIdx : Nat)

def applyElemOp (a : Action) : ElemOp → Action
  | ElemOp.addElem j x => actionAddElement a j x
  | ElemOp.delElem j i => actionDeleteElement a j i

def applyElemOps (a : Action) : List ElemOp → Action
  | [] => a
  | op :: ops => applyElemOps (applyElemOp a op) ops

/-- Every length argument (a scalar immediately preceding an array argument) equals
its array's element count. -/
def lengthsSynced (a : Action) : Prop :=
  ∀ j nm es m v, a.args[j]? = some (Arg.array nm es) → 1 ≤ j →
    a.args[j - 1]? = some (Arg.scalar m v) → v = (es.length : Int)

theorem getElem?_set_eq_of_lt {α : Type} (l : List α) (i : Nat) (x : α)
    (h : i < l.length) : (l.set i x)[i]? = some x := by
  rw [List.getElem?_set_self', List.getElem?_eq_getElem h]
  rfl

theorem lt_length_of_getElem?_some {α : Type} {l : List α} {i : Nat} {x : α}
    (h : l[i]? = some x) : i < l.length := by
  by_contra hlt
  push_neg at hlt
  rw [List.getElem?_eq_none hlt] at h
  cases h

theorem args_lookup_of_getElem? (a : Action) {j : Nat} {x : Arg}
    (h : a.args[j]? = some x) :
    a.lookup "arguments" = some (SettingVal.args a.args) := by
  unfold Action.args at *
  cases hl : a.lookup "arguments" with
  | none => rw [hl] at h; simp at h
  | some v =>
    cases v with
    | args l => rfl
    | fn f => rw [hl] at h; simp at h
    | boolean b => rw [hl] at h; simp at h
    | str s => rw [hl] at h; simp at h
    | strList s => rw [hl] at h; simp at h

theorem find?_map_name_preserving (f : ASetting → ASetting)
    (hf : ∀ s, (f s).name = s.name) (n : String) :
    ∀ l : List ASetting,
      (l.map f).find? (fun s => s.name = n) = (l.find? (fun s => s.name = n)).map f := by
  intro l
  induction l with
  | nil => rfl
  | cons s t ih =>
    by_cases hs : s.name = n
    · simp only [List.map_cons, List.find?_cons]
      rw [decide_eq_true (show (f s).name = n by rw [hf s]; exact hs), decide_eq_true hs]
      rfl
    · simp only [List.map_cons, List.find?_cons]
      rw [decide_eq_false (show ¬ (f s).name = n by rw [hf s]; exact hs),
        decide_eq_false hs]
      exact ih

theorem setArgs_args (a : Action) (l : List Arg)
    (h : a.lookup "arguments" = some (SettingVal.args a.args)) :
    (a.setArgs l).args = l := by
  unfold Action.setArgs Action.args Action.lookup at *
  dsimp only
  rw [find?_map_name_preserving _ (fun s => by by_cases hs : s.name = "arguments" <;>
    simp [hs]) "arguments" a.settings]
  cases hfind : a.settings.find? (fun s => s.name = "arguments") with
  | none => rw [hfind] at h; simp at h
  | some s =>
    rw [hfind] at h
    simp only [Option.map_some', Option.some.injEq] at h ⊢
    have hp := List.find?_some hfind
    have hsn : s.name = "arguments" := of_decide_eq_true hp
    simp [hsn]

theorem setArgs_isPdb (a : Action) (l : List Arg) :
    isPdbProcedureAction (a.setArgs l) = isPdbProcedureAction a := by
  unfold isPdbProcedureAction Action.getBool Action.lookup Action.setArgs
  dsimp only
  rw [find?_map_name_preserving _ (fun s => by by_cases hs : s.name = "arguments" <;>
    simp [hs]) "is_pdb_procedure" a.settings]
  cases hfind : a.settings.find? (fun s => s.name = "is_pdb_procedure") with
  | none => rfl
  | some s =>
    have hp := List.find?_some hfind
    have hsn : s.name = "is_pdb_procedure" := of_decide_eq_true hp
    simp only [Option.map_some']
    rw [if_neg (show ¬ s.name = "arguments" by rw [hsn]; decide)]

theorem actionAddElement_args (a : Action) (j : Nat) (x : Int) (nm : String)
    (es : List Int) (hj : a.args[j]? = some (Arg.array nm es))
    (hpdb : isPdbProcedureAction a = true) (hj1 : 1 ≤ j) (p : Arg)
    (hp : a.args[j - 1]? = some p) :
    (actionAddElement a j x).args
      = (a.args.set j (Arg.array nm (es ++ [x]))).set (j - 1) (incrementArg p) := by
  unfold actionAddElement
  simp only [hj]
  rw [if_pos ⟨hpdb, hj1⟩]
  have h1 : (a.args.set j (Arg.array nm (es ++ [x])))[j - 1]? = some p := by
    rw [List.getElem?_set_ne (by omega : j ≠ j - 1)]
    exact hp
  simp only [h1]
  exact setArgs_args a _ (args_lookup_of_getElem? a hj)

theorem actionAddElement_args_zero (a : Action) (x : Int) (nm : String) (es : List Int)
    (hj : a.args[0]? = some (Arg.array nm es)) :
    (actionAddElement a 0 x).args = a.args.set 0 (Arg.array nm (es ++ [x])) := by
  unfold actionAddElement
  simp only [hj]
  rw [if_neg (by simp)]
  exact setArgs_args a _ (args_lookup_of_getElem? a hj)

theorem actionAddElement_unchanged (a : Action) (j : Nat) (x : Int)
    (h : ∀ nm es, a.args[j]? ≠ some (Arg.array nm es)) :
    actionAddElement a j x = a := by
  unfold actionAddElement
  cases hj : a.args[j]? with
  | none => rfl
  | some arg =>
    cases arg with
    | scalar n v => rfl
    | array nm es => exact absurd hj (h nm es)

theorem actionDeleteElement_args (a : Action) (j i : Nat) (nm : String) (es : List Int)
    (hj : a.args[j]? = some (Arg.array nm es)) (hi : i < es.length)
    (hpdb : isPdbProcedureAction a = true) (hj1 : 1 ≤ j) (p : Arg)
    (hp : a.args[j - 1]? = some p) :
    (actionDeleteElement a j i).args
      = (a.args.set (j - 1) (decrementArg p)).set j (Arg.array nm (es.eraseIdx i)) := by
  unfold actionDeleteElement
  simp only [hj]
  rw [if_pos hi, if_pos ⟨hpdb, hj1⟩]
  simp only [hp]
  exact setArgs_args a _ (args_lookup_of_getElem? a hj)

theorem actionDeleteElement_args_zero (a : Action) (i : Nat) (nm : String)
    (es : List Int) (hj : a.args[0]? = some (Arg.array nm es)) (hi : i < es.length) :
    (actionDeleteElement a 0 i).args = a.args.set 0 (Arg.array nm (es.eraseIdx i)) := by
  unfold actionDeleteElement
  simp only [hj]
  rw [if_pos hi, if_neg (by simp)]
  exact setArgs_args a _ (args_lookup_of_getElem? a hj)

theorem actionDeleteElement_unchanged (a : Action) (j i : Nat)
    (h : ∀ nm es, a.args[j]? = some (Arg.array nm es) → ¬ i < es.length) :
    actionDeleteElement a j i = a := by
  unfold actionDeleteElement
  cases hj : a.args[j]? with
  | none => rfl
  | some arg =>
    cases arg with
    | scalar n v => rfl
    | array nm es =>
      dsimp only
      rw [if_neg (h nm es hj)]

theorem isPdb_actionAddElement (a : Action) (j : Nat) (x : Int) :
    isPdbProcedureAction (actionAddElement a j x) = isPdbProcedureAction a := by
  unfold actionAddElement
  cases hj : a.args[j]? with
  | none => rfl
  | some arg =>
    cases arg with
    | scalar n v => rfl
    | array nm es => exact setArgs_isPdb a _

theorem isPdb_actionDeleteElement (a : Action) (j i : Nat) :
    isPdbProcedureAction (actionDeleteElement a j i) = isPdbProcedureAction a := by
  unfold actionDeleteElement
  cases hj : a.args[j]? with
  | none => rfl
  | some arg =>
    cases arg with
    | scalar n v => rfl
    | array nm es =>
      dsimp only
      by_cases hi : i < es.length
      · rw [if_pos hi]
        exact setArgs_isPdb a _
      · rw [if_neg hi]

/-- `lengthsSynced` phrased over a bare argument list. -/
def argsSynced (L : List Arg) : Prop :=
  ∀ j nm es m v, L[j]? = some (Arg.array nm es) → 1 ≤ j →
    L[j - 1]? = some (Arg.scalar m v) → v = (es.length : Int)

theorem argsSynced_update (L : List Arg) (j : Nat) (hj1 : 1 ≤ j) (nm : String)
    (es es2 : List Int) (p q : Arg) (hjlen : j < L.length)
    (hq : ∀ m v, p = Arg.scalar m v →
      ∃ w, q = Arg.scalar m w ∧ (v = (es.length : Int) → w = (es2.length : Int)))
    (hq_arr : ∀ pn pes, p = Arg.array pn pes → q = Arg.array pn pes)
    (hjL : L[j]? = some (Arg.array nm es)) (hp : L[j - 1]? = some p)
    (hs : argsSynced L) :
    argsSynced ((L.set j (Arg.array nm es2)).set (j - 1) q) := by
  intro j' nm' es' m' v' hj' hj1' hjm'
  have hAt : ∀ k, ((L.set j (Arg.array nm es2)).set (j - 1) q)[k]?
      = if k = j - 1 then some q
        else if k = j then some (Arg.array nm es2) else L[k]? := by
    intro k
    by_cases hk1 : k = j - 1
    · rw [if_pos hk1, hk1]
      apply getElem?_set_eq_of_lt
      simp only [List.length_set]
      omega
    · rw [if_neg hk1, List.getElem?_set_ne (fun h => hk1 h.symm)]
      by_cases hk2 : k = j
      · rw [if_pos hk2, hk2]
        exact getElem?_set_eq_of_lt _ _ _ hjlen
      · rw [if_neg hk2, List.getElem?_set_ne (fun h => hk2 h.symm)]
  rw [hAt j'] at hj'
  rw [hAt (j' - 1)] at hjm'
  by_cases e1 : j' = j - 1
  · rw [if_pos e1] at hj'
    injection hj' with hj'2
    cases hpc : p with
    | scalar pm pv =>
      obtain ⟨w, hqw, _⟩ := hq pm pv hpc
      rw [hqw] at hj'2
      simp at hj'2
    | array pn pes =>
      have hqa := hq_arr pn pes hpc
      rw [hqa] at hj'2
      injection hj'2 with h1 h2
      rw [if_neg (by omega), if_neg (by omega)] at hjm'
      apply hs j' nm' es' m' v' ?_ hj1' hjm'
      rw [e1, hp, hpc, h1, h2]
  · by_cases e2 : j' = j
    · rw [if_neg e1, if_pos e2] at hj'
      injection hj' with hj'2
      injection hj'2 with hnm hes
      rw [if_pos (by omega)] at hjm'
      cases hpc : p with
      | array pn pes =>
        rw [hq_arr pn pes hpc] at hjm'
        simp at hjm'
      | scalar pm pv =>
        obtain ⟨w, hqw, hw⟩ := hq pm pv hpc
        rw [hqw] at hjm'
        injection hjm' with h
        injection h with hm hv
        have hold : pv = (es.length : Int) :=
          hs j nm es pm pv hjL hj1 (by rw [hp, hpc])
        rw [← hv, ← hes]
        exact hw hold
    · rw [if_neg e1, if_neg e2] at hj'
      by_cases e3 : j' - 1 = j - 1
      · exfalso
        omega
      · by_cases e4 : j' - 1 = j
        · rw [if_neg e3, if_pos e4] at hjm'
          simp at hjm'
        · rw [if_neg e3, if_neg e4] at hjm'
          exact hs j' nm' es' m' v' hj' hj1' hjm'

theorem argsSynced_update_zero (L : List Arg) (nm : String) (es2 : List Int)
    (h0 : 0 < L.length) (hs : argsSynced L) :
    argsSynced (L.set 0 (Arg.array nm es2)) := by
  intro j' nm' es' m' v' hj' hj1' hjm'
  have hAt : ∀ k, (L.set 0 (Arg.array nm es2))[k]?
      = if k = 0 then some (Arg.array nm es2) else L[k]? := by
    intro k
    by_cases hk : k = 0
    · rw [if_pos hk, hk]
      exact getElem?_set_eq_of_lt _ _ _ h0
    · rw [if_neg hk, List.getElem?_set_ne (fun h => hk h.symm)]
  rw [hAt j'] at hj'
  rw [hAt (j' - 1)] at hjm'
  rw [if_neg (by omega)] at hj'
  by_cases e : j' - 1 = 0
  · rw [if_pos e] at hjm'
    simp at hjm'
  · rw [if_neg e] at hjm'
    exact hs j' nm' es' m' v' hj' hj1' hjm'

theorem lengthsSynced_addElement (a : Action) (j : Nat) (x : Int)
    (hpdb : isPdbProcedureAction a = true) (hs : lengthsSynced a) :
    lengthsSynced (actionAddElement a j x) := by
  cases hj : a.args[j]? with
  | none =>
    rw [actionAddElement_unchanged a j x (by rw [hj]; intro nm es h; cases h)]
    exact hs
  | some arg =>
    cases arg with
    | scalar n v =>
      rw [actionAddElement_unchanged a j x (by rw [hj]; intro nm es h; cases h)]
      exact hs
    | array nm es =>
      by_cases hj1 : 1 ≤ j
      · have hjlen : j < a.args.length := lt_length_of_getElem?_some hj
        have hples : j - 1 < a.args.length := by omega
        obtain ⟨p, hp⟩ : ∃ p, a.args[j - 1]? = some p :=
          ⟨a.args[j - 1], List.getElem?_eq_getElem hples⟩
        have hargs := actionAddElement_args a j x nm es hj hpdb hj1 p hp
        show argsSynced (actionAddElement a j x).args
        rw [hargs]
        apply argsSynced_update a.args j hj1 nm es (es ++ [x]) p (incrementArg p) hjlen
          ?_ ?_ hj hp hs
        · intro m v hpc
          refine ⟨v + 1, by rw [hpc]; rfl, ?_⟩
          intro hv
          rw [hv]
          simp
        · intro pn pes hpc
          rw [hpc]
          rfl
      · have hj0 : j = 0 := by omega
        subst hj0
        have hlen0 : 0 < a.args.length := lt_length_of_getElem?_some hj
        have hargs := actionAddElement_args_zero a x nm es hj
        show argsSynced (actionAddElement a 0 x).args
        rw [hargs]
        exact argsSynced_update_zero a.args nm (es ++ [x]) hlen0 hs

theorem lengthsSynced_deleteElement (a : Action) (j i : Nat)
    (hpdb : isPdbProcedureAction a = true) (hs : lengthsSynced a) :
    lengthsSynced (actionDeleteElement a j i) := by
  cases hj : a.args[j]? with
  | none =>
    rw [actionDeleteElement_unchanged a j i (by rw [hj]; intro nm es h; cases h)]
    exact hs
  | some arg =>
    cases arg with
    | scalar n v =>
      rw [actionDeleteElement_unchanged a j i (by rw [hj]; intro nm es h; cases h)]
      exact hs
    | array nm es =>
      by_cases hi : i < es.length
      · by_cases hj1 : 1 ≤ j
        · have hjlen : j < a.args.length := lt_length_of_getElem?_some hj
          have hples : j - 1 < a.args.length := by omega
          obtain ⟨p, hp⟩ : ∃ p, a.args[j - 1]? = some p :=
            ⟨a.args[j - 1], List.getElem?_eq_getElem hples⟩
          have hargs := actionDeleteElement_args a j i nm es hj hi hpdb hj1 p hp
          show argsSynced (actionDeleteElement a j i).args
          rw [hargs]
          -- the `set` operations commute here (distinct indices), matching the
          -- update lemma's orientation
          have hcomm : (a.args.set (j - 1) (decrementArg p)).set j
                (Arg.array nm (es.eraseIdx i))
              = (a.args.set j (Arg.array nm (es.eraseIdx i))).set (j - 1)
                (decrementArg p) :=
            List.set_comm _ _ _ (by omega)
          rw [hcomm]
          apply argsSynced_update a.args j hj1 nm es (es.eraseIdx i) p (decrementArg p)
            hjlen ?_ ?_ hj hp hs
          · intro m v hpc
            refine ⟨v - 1, by rw [hpc]; rfl, ?_⟩
            intro hv
            rw [hv]
            have := List.length_eraseIdx_add_one hi
            omega
          · intro pn pes hpc
            rw [hpc]
            rfl
        · have hj0 : j = 0 := by omega
          subst hj0
          have hlen0 : 0 < a.args.length := lt_length_of_getElem?_some hj
          have hargs := actionDeleteElement_args_zero a i nm es hj hi
          show argsSynced (actionDeleteElement a 0 i).args
          rw [hargs]
          exact argsSynced_update_zero a.args nm (es.eraseIdx i) hlen0 hs
      · rw [actionDeleteElement_unchanged a j i
          (by intro nm' es' h; rw [hj] at h; injection h with h2; injection h2 with h3 h4;
              rw [← h4]; exact hi)]
        exact hs

/-- C5.  For a PDB-procedure action (`'is_pdb_procedure'` true), adding an element
to an array argument increments the value of the immediately preceding (length)
argument by exactly 1 and appends the element; deleting an element decrements it by
exactly 1; consequently, every length argument that equals its array's element count
still equals it after any sequence of element additions and deletions. -/
theorem c5_array_length_sync :
    (∀ (a : Action) (j : Nat) (x : Int) (nm : String) (es : List Int) (m : String)
        (v : Int),
      isPdbProcedureAction a = true →
      a.args[j]? = some (Arg.array nm es) → 1 ≤ j →
      a.args[j - 1]? = some (Arg.scalar m v) →
      (actionAddElement a j x).args[j - 1]? = some (Arg.scalar m (v + 1)) ∧
      (actionAddElement a j x).args[j]? = some (Arg.array nm (es ++ [x]))) ∧
    (∀ (a : Action) (j i : Nat) (nm : String) (es : List Int) (m : String) (v : Int),
      isPdbProcedureAction a = true →
      a.args[j]? = some (Arg.array nm es) → i < es.length → 1 ≤ j →
      a.args[j - 1]? = some (Arg.scalar m v) →
      (actionDeleteElement a j i).args[j - 1]? = some (Arg.scalar m (v - 1)) ∧
      (actionDeleteElement a j i).args[j]? = some (Arg.array nm (es.eraseIdx i))) ∧
    (∀ (a : Action), isPdbProcedureAction a = true → lengthsSynced a →
      ∀ ops : List ElemOp, lengthsSynced (applyElemOps a ops)) := by
  refine ⟨?_, ?_, ?_⟩
  · intro a j x nm es m v hpdb hj hj1 hm
    have hjlen : j < a.args.length := lt_length_of_getElem?_some hj
    have hargs := actionAddElement_args a j x nm es hj hpdb hj1 _ hm
    rw [hargs]
    constructor
    · have : incrementArg (Arg.scalar m v) = Arg.scalar m (v + 1) := rfl
      rw [← this]
      apply getElem?_set_eq_of_lt
      simp only [List.length_set]
      omega
    · rw [List.getElem?_set_ne (by omega : j - 1 ≠ j)]
      exact getElem?_set_eq_of_lt _ _ _ hjlen
  · intro a j i nm es m v hpdb hj hi hj1 hm
    have hjlen : j < a.args.length := lt_length_of_getElem?_some hj
    have hargs := actionDeleteElement_args a j i nm es hj hi hpdb hj1 _ hm
    rw [hargs]
    constructor
    · rw [List.getElem?_set_ne (by omega : j ≠ j - 1)]
      have : decrementArg (Arg.scalar m v) = Arg.scalar m (v - 1) := rfl
      rw [← this]
      apply getElem?_set_eq_of_lt
      omega
    · apply getElem?_set_eq_of_lt
      simp only [List.length_set]
      omega
  · intro a hpdb hs ops
    induction ops generalizing a with
    | nil => exact hs
    | cons op ops ih =>
      show lengthsSynced (applyElemOps (applyElemOp a op) ops)
      cases op with
      | addElem j x =>
        exact ih (actionAddElement a j x)
          (by rw [isPdb_actionAddElement]; exact hpdb)
          (lengthsSynced_addElement a j x hpdb hs)
      | delElem j i =>
        exact ih (actionDeleteElement a j i)
          (by rw [isPdb_actionDeleteElement]; exact hpdb)
          (lengthsSynced_deleteElement a j i hpdb hs)

/-- Witness for C5: a PDB-procedure action whose arguments are a length argument
with value 2 followed by a two-element array; one element addition and one deletion,
and a two-operation sequence. -/
theorem c5_witness :
    ((actionAddElement ⟨"p", ["action", "procedure"],
        [⟨"arguments", SettingVal.args [Arg.scalar "n" 2, Arg.array "xs" [5, 6]]⟩,
         ⟨"is_pdb_procedure", SettingVal.boolean true⟩]⟩ 1 7).args[(0 : Nat)]?
      = some (Arg.scalar "n" (2 + 1)) ∧
     (actionAddElement ⟨"p", ["action", "procedure"],
        [⟨"arguments", SettingVal.args [Arg.scalar "n" 2, Arg.array "xs" [5, 6]]⟩,
         ⟨"is_pdb_procedure", SettingVal.boolean true⟩]⟩ 1 7).args[(1 : Nat)]?
      = some (Arg.array "xs" ([5, 6] ++ [7]))) ∧
    ((actionDeleteElement ⟨"p", ["action", "procedure"],
        [⟨"arguments", SettingVal.args [Arg.scalar "n" 2, Arg.array "xs" [5, 6]]⟩,
         ⟨"is_pdb_procedure", SettingVal.boolean true⟩]⟩ 1 0).args[(0 : Nat)]?
      = some (Arg.scalar "n" (2 - 1)) ∧
     (actionDeleteElement ⟨"p", ["action", "procedure"],
        [⟨"arguments", SettingVal.args [Arg.scalar "n" 2, Arg.array "xs" [5, 6]]⟩,
         ⟨"is_pdb_procedure", SettingVal.boolean true⟩]⟩ 1 0).args[(1 : Nat)]?
      = some (Arg.array "xs" ([5, 6].eraseIdx 0))) ∧
    lengthsSynced (applyElemOps ⟨"p", ["action", "procedure"],
        [⟨"arguments", SettingVal.args [Arg.scalar "n" 2, Arg.array "xs" [5, 6]]⟩,
         ⟨"is_pdb_procedure", SettingVal.boolean true⟩]⟩
      [ElemOp.addElem 1 7, ElemOp.delElem 1 1]) := by
  have hsync : lengthsSynced ⟨"p", ["action", "procedure"],
      [⟨"arguments", SettingVal.args [Arg.scalar "n" 2, Arg.array "xs" [5, 6]]⟩,
       ⟨"is_pdb_procedure", SettingVal.boolean true⟩]⟩ := by
    intro j nm es m v hj hj1 hm
    match j, hj1 with
    | 1, _ =>
      replace hj : some (Arg.array "xs" [5, 6]) = some (Arg.array nm es) := hj
      replace hm : some (Arg.scalar "n" 2) = some (Arg.scalar m v) := hm
      injection hj with hj2
      injection hj2 with hj3 hj4
      injection hm with hm2
      injection hm2 with hm3 hm4
      rw [← hm4, ← hj4]
      decide
    | j + 2, _ =>
      have hnone : (⟨"p", ["action", "procedure"],
          [⟨"arguments", SettingVal.args [Arg.scalar "n" 2, Arg.array "xs" [5, 6]]⟩,
           ⟨"is_pdb_procedure", SettingVal.boolean true⟩]⟩ : Action).args[j + 2]?
          = none := by
        apply List.getElem?_eq_none
        show 2 ≤ j + 2
        omega
      rw [hnone] at hj
      cases hj
  refine ⟨?_, ?_, ?_⟩
  · exact c5_array_length_sync.1 _ 1 7 "xs" [5, 6] "n" 2 rfl rfl (by decide) rfl
  · exact c5_array_length_sync.2.1 _ 1 0 "xs" [5, 6] "n" 2 rfl rfl (by decide)
      (by decide) rfl
  · exact c5_array_length_sync.2.2 ⟨"p", ["action", "procedure"],
      [⟨"arguments", SettingVal.args [Arg.scalar "n" 2, Arg.array "xs" [5, 6]]⟩,
       ⟨"is_pdb_procedure", SettingVal.boolean true⟩]⟩ rfl hsync
      [ElemOp.addElem 1 7, ElemOp.delElem 1 1]

/-! ### `pygimplib/setting/persistor.py` -/

namespace Persistor

/-- Events invoked on individual settings by `Persistor.load` / `Persistor.save`;
settings are identified by numeric ids. -/
inductive PEvent where
  | beforeLoad (s : Nat)
  | afterLoad (s : Nat)
  | beforeSave (s : Nat)
  | afterSave (s : Nat)
deriving DecidableEq

/-- Outcome of `source.read(settings)`: success, or one of the exceptions of
`setting._sources_errors` that `Persistor.load` distinguishes
(`SettingsNotFoundInSourceError` carries `settings_not_found`). -/
inductive ReadOutcome where
  | success
  | settingsNotFound (settingsNotFound : List Nat) (msg : String)
  | sourceNotFound (msg : String)
  | readError (msg : String)
  | invalidFormat (msg : String)

/-- Modelled from the spec: a `Source` is a persistence backend (session-scoped
shelf storage or on-disk parasite storage); the `sources` module itself is not under
`src/`.  `read`/`write` abstract the backend's behaviour (`write` yields the
`SourceError` message on failure, `none` on success), and `id` models Python object
identity, which is what the `source == setting_sources[-1]` comparison in
`Persistor.load` falls back to for objects without a custom `__eq__`. -/
structure Source where
  id : Nat
  read : List Nat → ReadOutcome
  write : List Nat → Option String

def SUCCESS : Nat := 0

def READ_FAIL : Nat := 1

def WRITE_FAIL : Nat := 2

def NOT_ALL_SETTINGS_FOUND : Nat := 3

/-- `_list_settings`: flatten the settings-or-groups list into one settings list
(groups contribute their walked settings). -/
def listSettings (settingsOrGroups : List (Nat ⊕ List Nat)) : List Nat :=
  settingsOrGroups.foldl
    (fun acc sg =>
      match sg with
      | Sum.inl setting => acc ++ [setting]
      | Sum.inr group => acc ++ group) []

inductive LoadLoopResult where
  | finished (allSettingsFound : Bool) (msg : String)
  | readFail (msg : String)

/-- The source loop of `Persistor.load`: read each source with the settings still
missing; on success break; on `SettingsNotFoundInSourceError` narrow the settings
(and on `SourceNotFoundError` keep them) and break with `all_settings_found = False`
when the current source `==` (is) the last one; on `SourceReadError` /
`SourceInvalidFormatError` return `READ_FAIL` immediately. -/
def loadLoop (last : Source) (settings : List Nat) : List Source → LoadLoopResult
  | [] => LoadLoopResult.finished true ""
  | s :: rest =>
    match s.read settings with
    | ReadOutcome.success => LoadLoopResult.finished true ""
    | ReadOutcome.settingsNotFound notFound msg =>
      if s.id = last.id then LoadLoopResult.finished false msg
      else loadLoop last notFound rest
    | ReadOutcome.sourceNotFound msg =>
      if s.id = last.id then LoadLoopResult.finished false msg
      else loadLoop last settings rest
    | ReadOutcome.readError msg => LoadLoopResult.readFail msg
    | ReadOutcome.invalidFormat msg => LoadLoopResult.readFail msg

structure PersistResult where
  status : Nat
  message : String
  log : List PEvent
deriving DecidableEq

/-- `Persistor.load`: empty input short-circuits to `SUCCESS`; otherwise
`'before-load'` is invoked on every setting, the sources are read in order, and —
unless a read or invalid-format error caused an early `READ_FAIL` return —
`'after-load'` is invoked on every setting and the status reflects whether all
settings were found. -/
def load (settingsOrGroups : List (Nat ⊕ List Nat)) (settingSources : List Source) :
    PersistResult :=
  match settingSources with
  | [] => ⟨SUCCESS, "", []⟩
  | s₀ :: ss =>
    if settingsOrGroups.isEmpty then ⟨SUCCESS, "", []⟩
    else
      let allSettings := listSettings settingsOrGroups
      let beforeLog := allSettings.map PEvent.beforeLoad
      match loadLoop ((s₀ :: ss).getLast (List.cons_ne_nil s₀ ss)) allSettings
          (s₀ :: ss) with
      | LoadLoopResult.readFail msg => ⟨READ_FAIL, msg, beforeLog⟩
      | LoadLoopResult.finished true _ =>
        ⟨SUCCESS, "", beforeLog ++ allSettings.map PEvent.afterLoad⟩
      | LoadLoopResult.finished false msg =>
        ⟨NOT_ALL_SETTINGS_FOUND, msg, beforeLog ++ allSettings.map PEvent.afterLoad⟩

/-- The source loop of `Persistor.save`: write every source in order, returning the
`SourceError` message of the first failing write. -/
def saveLoop (settings : List Nat) : List Source → Option String
  | [] => none
  | s :: rest =>
    match s.write settings with
    | some msg => some msg
    | none => saveLoop settings rest

/-- `Persistor.save`: empty input short-circuits to `SUCCESS`; otherwise
`'before-save'` is invoked on every setting, every source is written (returning
`WRITE_FAIL` at the first failing write, before any `'after-save'`), and on success
`'after-save'` is invoked on every setting. -/
def save (settingsOrGroups : List (Nat ⊕ List Nat)) (settingSources : List Source) :
    PersistResult :=
  if settingsOrGroups.isEmpty ∨ settingSources.isEmpty then ⟨SUCCESS, "", []⟩
  else
    let settings := listSettings settingsOrGroups
    let beforeLog := settings.map PEvent.beforeSave
    match saveLoop settings settingSources with
    | some msg => ⟨WRITE_FAIL, msg, beforeLog⟩
    | none => ⟨SUCCESS, "", beforeLog ++ settings.map PEvent.afterSave⟩

/-- Definition following the words of claim C2 (the specification's description, not
the code): read the sources in list order with the settings not yet found; stop at
the first source from which reading succeeds; a read or invalid-format error gives
`READ_FAIL` immediately; running out of sources with settings still missing gives
`NOT_ALL_SETTINGS_FOUND`. -/
def specLoadLoop (settings : List Nat) : List Source → Nat
  | [] => NOT_ALL_SETTINGS_FOUND
  | s :: rest =>
    match s.read settings with
    | ReadOutcome.success => SUCCESS
    | ReadOutcome.settingsNotFound notFound _ => specLoadLoop notFound rest
    | ReadOutcome.sourceNotFound _ => specLoadLoop settings rest
    | ReadOutcome.readError _ => READ_FAIL
    | ReadOutcome.invalidFormat _ => READ_FAIL

/-- The claim's status, with the same empty-input short-circuit as the code. -/
def specLoadStatus (settingsOrGroups : List (Nat ⊕ List Nat))
    (settingSources : List Source) : Nat :=
  if settingsOrGroups.isEmpty ∨ settingSources.isEmpty then SUCCESS
  else specLoadLoop (listSettings settingsOrGroups) settingSources

def loopStatus : LoadLoopResult → Nat
  | LoadLoopResult.readFail _ => READ_FAIL
  | LoadLoopResult.finished true _ => SUCCESS
  | LoadLoopResult.finished false _ => NOT_ALL_SETTINGS_FOUND

theorem loadLoop_eq_spec (last : Source) :
    ∀ (l : List Source) (settings : List Nat),
      l ≠ [] →
      (∀ (i : Nat) (s : Source), l[i]? = some s → (s.id = last.id ↔ i = l.length - 1)) →
      loopStatus (loadLoop last settings l) = specLoadLoop settings l := by
  intro l
  induction l with
  | nil => intro settings hne _; exact absurd rfl hne
  | cons s rest ih =>
    intro settings _ hid
    have hid0 := hid 0 s (by simp)
    cases rest with
    | nil =>
      have hs : s.id = last.id := hid0.mpr (by simp)
      simp only [loadLoop, specLoadLoop]
      cases s.read settings with
      | success => rfl
      | settingsNotFound notFound msg => dsimp only; rw [if_pos hs]; rfl
      | sourceNotFound msg => dsimp only; rw [if_pos hs]; rfl
      | readError msg => rfl
      | invalidFormat msg => rfl
    | cons t rest' =>
      have hs : ¬ s.id = last.id := by
        intro h
        have := hid0.mp h
        simp only [List.length_cons] at this
        omega
      have hid' : ∀ (i : Nat) (s' : Source), (t :: rest')[i]? = some s' →
          (s'.id = last.id ↔ i = (t :: rest').length - 1) := by
        intro i s' hi
        have hlt : i < (t :: rest').length := lt_length_of_getElem?_some hi
        have := hid (i + 1) s' (by rw [List.getElem?_cons_succ]; exact hi)
        simp only [List.length_cons] at this ⊢
        rw [this]
        omega
      simp only [loadLoop, specLoadLoop]
      cases s.read settings with
      | success => rfl
      | settingsNotFound notFound msg =>
        dsimp only
        rw [if_neg hs]
        exact ih notFound (List.cons_ne_nil t rest') hid'
      | sourceNotFound msg =>
        dsimp only
        rw [if_neg hs]
        exact ih settings (List.cons_ne_nil t rest') hid'
      | readError msg => rfl
      | invalidFormat msg => rfl

theorem load_cons_eq (sg : List (Nat ⊕ List Nat)) (s₀ : Source) (ss : List Source) :
    load sg (s₀ :: ss) =
      if sg.isEmpty then ⟨SUCCESS, "", []⟩
      else
        match loadLoop ((s₀ :: ss).getLast (List.cons_ne_nil s₀ ss)) (listSettings sg)
            (s₀ :: ss) with
        | LoadLoopResult.readFail msg =>
          ⟨READ_FAIL, msg, (listSettings sg).map PEvent.beforeLoad⟩
        | LoadLoopResult.finished true _ =>
          ⟨SUCCESS, "",
            (listSettings sg).map PEvent.beforeLoad ++
              (listSettings sg).map PEvent.afterLoad⟩
        | LoadLoopResult.finished false msg =>
          ⟨NOT_ALL_SETTINGS_FOUND, msg,
            (listSettings sg).map PEvent.beforeLoad ++
              (listSettings sg).map PEvent.afterLoad⟩ :=
  rfl

theorem save_eq (sg : List (Nat ⊕ List Nat)) (srcs : List Source) :
    save sg srcs =
      if sg.isEmpty ∨ srcs.isEmpty then ⟨SUCCESS, "", []⟩
      else
        match saveLoop (listSettings sg) srcs with
        | some msg => ⟨WRITE_FAIL, msg, (listSettings sg).map PEvent.beforeSave⟩
        | none =>
          ⟨SUCCESS, "",
            (listSettings sg).map PEvent.beforeSave ++
              (listSettings sg).map PEvent.afterSave⟩ :=
  rfl

theorem saveLoop_append (settings : List Nat) (pre : List Source) (src : Source)
    (rest : List Source) (msg : String)
    (hpre : ∀ p ∈ pre, p.write settings = none)
    (hsrc : src.write settings = some msg) :
    saveLoop settings (pre ++ src :: rest) = some msg := by
  induction pre with
  | nil => simp only [List.nil_append, saveLoop, hsrc]
  | cons p ps ih =>
    have hp : p.write settings = none := hpre p (by simp)
    simp only [List.cons_append, saveLoop, hp]
    exact ih (fun q hq => hpre q (by simp [hq]))

/-- With pairwise-distinct source ids, being `==` the last source characterizes the
last position in the source list. -/
theorem getLast_id_iff (l : List Source) (hne : l ≠ [])
    (hnd : (l.map Source.id).Nodup) (i : Nat) (s : Source) (hi : l[i]? = some s) :
    s.id = (l.getLast hne).id ↔ i = l.length - 1 := by
  have hlt : i < l.length := lt_length_of_getElem?_some hi
  have hlast : l.length - 1 < l.length := by omega
  have hgl : some (l.getLast hne) = l[l.length - 1]? := by
    rw [List.getElem?_eq_getElem hlast]
    exact congrArg some (List.get_length_sub_one hlast).symm
  constructor
  · intro h
    by_contra hii
    have hmapi : (l.map Source.id)[i]? = some s.id := by
      rw [List.getElem?_map, hi]; rfl
    have hmapl : (l.map Source.id)[l.length - 1]? = some (l.getLast hne).id := by
      rw [List.getElem?_map, ← hgl]; rfl
    have hnd' := List.nodup_iff_getElem?_ne_getElem?.mp hnd
    rcases Nat.lt_or_ge i (l.length - 1) with hl | hr
    · exact hnd' i (l.length - 1) hl (by simpa using hlast)
        (by rw [hmapi, hmapl, h])
    · have hr' : l.length - 1 < i := by omega
      exact hnd' (l.length - 1) i hr' (by simpa using hlt)
        (by rw [hmapi, hmapl, h])
  · intro h
    subst h
    rw [← hgl] at hi
    injection hi with h
    rw [← h]

end Persistor

/-- C2 (amended): with pairwise-distinct sources, `Persistor.load` reads the sources
in list order, stops at the first source from which reading succeeds, consults each
subsequent source only for the settings not found so far, and returns `SUCCESS` when
all settings are found, `NOT_ALL_SETTINGS_FOUND` when some settings are missing from
every source, and `READ_FAIL` as soon as reading any source raises a read or
invalid-format error. -/
theorem c2_load_source_order (sg : List (Nat ⊕ List Nat))
    (srcs : List Persistor.Source)
    (hnd : (srcs.map Persistor.Source.id).Nodup) :
    (Persistor.load sg srcs).status = Persistor.specLoadStatus sg srcs := by
  cases srcs with
  | nil => simp [Persistor.load, Persistor.specLoadStatus, Persistor.SUCCESS]
  | cons s₀ ss =>
    rw [Persistor.load_cons_eq]
    cases hE : sg.isEmpty with
    | true =>
      rw [if_pos rfl]
      simp [Persistor.specLoadStatus, hE]
    | false =>
      rw [if_neg Bool.false_ne_true]
      have hne : s₀ :: ss ≠ [] := List.cons_ne_nil s₀ ss
      have hmain := Persistor.loadLoop_eq_spec ((s₀ :: ss).getLast hne) (s₀ :: ss)
        (Persistor.listSettings sg) hne
        (fun i s hi => Persistor.getLast_id_iff (s₀ :: ss) hne hnd i s hi)
      have hspec : Persistor.specLoadStatus sg (s₀ :: ss) =
          Persistor.specLoadLoop (Persistor.listSettings sg) (s₀ :: ss) := by
        simp [Persistor.specLoadStatus, hE]
      rw [hspec, ← hmain]
      cases Persistor.loadLoop ((s₀ :: ss).getLast hne) (Persistor.listSettings sg)
          (s₀ :: ss) with
      | readFail msg => rfl
      | finished flag msg => cases flag <;> rfl

/-- C2 counterexample: `Persistor.load` compares each source with
`setting_sources[-1]`; when the last source also occurs earlier in the list, the
loop stops at that earlier occurrence with `all_settings_found = False` instead of
consulting the remaining sources, so the code returns `NOT_ALL_SETTINGS_FOUND` even
though a later source holds the missing setting and the claimed reading order would
return `SUCCESS`. -/
theorem c2_counterexample :
    (Persistor.load [Sum.inl 0]
        [⟨0, fun _ => Persistor.ReadOutcome.settingsNotFound [0] "missing",
            fun _ => none⟩,
          ⟨1, fun _ => Persistor.ReadOutcome.success, fun _ => none⟩,
          ⟨0, fun _ => Persistor.ReadOutcome.settingsNotFound [0] "missing",
            fun _ => none⟩]).status = Persistor.NOT_ALL_SETTINGS_FOUND ∧
      Persistor.specLoadStatus [Sum.inl 0]
        [⟨0, fun _ => Persistor.ReadOutcome.settingsNotFound [0] "missing",
            fun _ => none⟩,
          ⟨1, fun _ => Persistor.ReadOutcome.success, fun _ => none⟩,
          ⟨0, fun _ => Persistor.ReadOutcome.settingsNotFound [0] "missing",
            fun _ => none⟩] = Persistor.SUCCESS :=
  ⟨rfl, rfl⟩

/-- Witness for C2 at a two-source list with distinct ids: the first source misses
the setting, the second has it, and the load status agrees with the claimed
reading order. -/
theorem c2_witness :
    (Persistor.load [Sum.inl 0]
        [⟨0, fun _ => Persistor.ReadOutcome.settingsNotFound [0] "missing",
            fun _ => none⟩,
          ⟨1, fun _ => Persistor.ReadOutcome.success, fun _ => none⟩]).status =
      Persistor.specLoadStatus [Sum.inl 0]
        [⟨0, fun _ => Persistor.ReadOutcome.settingsNotFound [0] "missing",
            fun _ => none⟩,
          ⟨1, fun _ => Persistor.ReadOutcome.success, fun _ => none⟩] :=
  c2_load_source_order _ _ (by decide)

/-- C10: a read or invalid-format error makes `Persistor.load` return `READ_FAIL`
with `'before-load'` already invoked on every setting but `'after-load'` invoked on
none; `Persistor.save` returns `WRITE_FAIL` at the first source whose write raises a
source error, with `'before-save'` invoked on every setting and `'after-save'` on
none. -/
theorem c10_failed_load_save_events :
    (∀ (sg : List (Nat ⊕ List Nat)) (srcs : List Persistor.Source),
        (Persistor.load sg srcs).status = Persistor.READ_FAIL →
        (Persistor.load sg srcs).log =
          (Persistor.listSettings sg).map Persistor.PEvent.beforeLoad) ∧
    (∀ (sg : List (Nat ⊕ List Nat)) (pre : List Persistor.Source)
        (src : Persistor.Source) (rest : List Persistor.Source) (msg : String),
        sg.isEmpty = false →
        (∀ p ∈ pre, p.write (Persistor.listSettings sg) = none) →
        src.write (Persistor.listSettings sg) = some msg →
        Persistor.save sg (pre ++ src :: rest) =
          ⟨Persistor.WRITE_FAIL, msg,
            (Persistor.listSettings sg).map Persistor.PEvent.beforeSave⟩) := by
  constructor
  · intro sg srcs hstat
    cases srcs with
    | nil =>
      simp [Persistor.load, Persistor.SUCCESS, Persistor.READ_FAIL] at hstat
    | cons s₀ ss =>
      rw [Persistor.load_cons_eq] at hstat ⊢
      cases hE : sg.isEmpty with
      | true =>
        rw [hE, if_pos rfl] at hstat
        simp [Persistor.SUCCESS, Persistor.READ_FAIL] at hstat
      | false =>
        rw [hE] at hstat
        rw [if_neg Bool.false_ne_true] at hstat ⊢
        cases hres : Persistor.loadLoop ((s₀ :: ss).getLast (List.cons_ne_nil s₀ ss))
            (Persistor.listSettings sg) (s₀ :: ss) with
        | readFail msg => rfl
        | finished flag msg =>
          rw [hres] at hstat
          cases flag <;>
            simp [Persistor.SUCCESS, Persistor.NOT_ALL_SETTINGS_FOUND,
              Persistor.READ_FAIL] at hstat
  · intro sg pre src rest msg hsg hpre hsrc
    rw [Persistor.save_eq]
    have hcond : ¬(sg.isEmpty ∨ (pre ++ src :: rest).isEmpty) := by
      intro h
      cases h with
      | inl h => rw [hsg] at h; exact Bool.false_ne_true h
      | inr h => cases pre <;> simp at h
    rw [if_neg hcond, Persistor.saveLoop_append (Persistor.listSettings sg)
      pre src rest msg hpre hsrc]

/-- Witness for C10: a single source whose read raises a read error yields
`READ_FAIL` with only before-load events, and a single source whose write fails
yields `WRITE_FAIL` with only before-save events. -/
theorem c10_witness :
    ((Persistor.load [Sum.inl 0]
        [⟨0, fun _ => Persistor.ReadOutcome.readError "denied", fun _ => none⟩]).status =
        Persistor.READ_FAIL ∧
      (Persistor.load [Sum.inl 0]
        [⟨0, fun _ => Persistor.ReadOutcome.readError "denied", fun _ => none⟩]).log =
        (Persistor.listSettings [Sum.inl 0]).map Persistor.PEvent.beforeLoad) ∧
    Persistor.save [Sum.inl 0]
        ([] ++ ⟨0, fun _ => Persistor.ReadOutcome.success, fun _ => some "denied"⟩ :: []) =
      ⟨Persistor.WRITE_FAIL, "denied",
        (Persistor.listSettings [Sum.inl 0]).map Persistor.PEvent.beforeSave⟩ :=
  ⟨⟨rfl, c10_failed_load_save_events.1 [Sum.inl 0]
      [⟨0, fun _ => Persistor.ReadOutcome.readError "denied", fun _ => none⟩] rfl⟩,
    c10_failed_load_save_events.2 [Sum.inl 0] []
      ⟨0, fun _ => Persistor.ReadOutcome.success, fun _ => some "denied"⟩ [] "denied"
      rfl (fun p hp => absurd hp (List.not_mem_nil p)) rfl⟩

end ExportLayers
